import Mathlib

set_option maxHeartbeats 1000000

/-
Verification of the AI microservice's response pipeline
(`app/utils/llm_parsers.py`, `app/services/ai_service.py`,
`app/services/movement.py`, `app/services/route_safety.py`).

Modelling conventions:
* Python/JSON values are a `Json` inductive; Python numbers (ints and
  floats) are modelled as exact rationals, so the float literals `1.2`
  and `1.5` of the source appear as the rationals `6/5` and `3/2`.
* Python dicts are association lists in insertion order with unique-key
  updates (`dset`), matching CPython's dict semantics.
* Fallible Python expressions are modelled in `Except PyExc`; the text of
  an exception message is modelled descriptively (Python's exact wording
  is not reproduced except where the source spells the message out).
* `datetime.utcnow().isoformat()` is modelled as an explicit `now`
  argument carrying the ISO timestamp string.
-/

namespace AIMicro

/-- JSON values, the shallow embedding of Python objects that cross the
LLM boundary.  Numbers are exact rationals. -/
inductive Json where
  | null : Json
  | bool : Bool → Json
  | num : ℚ → Json
  | str : String → Json
  | arr : List Json → Json
  | obj : List (String × Json) → Json

/-- A Python dict whose keys are strings: an association list in
insertion order.  Inputs validated by the pydantic request models
(`List[Dict]`, `Dict`) are values of this type. -/
abbrev PyDict := List (String × Json)

/-- `d[k]` lookup (first binding wins; dicts built by `dset` have unique
keys). -/
def dlookup (d : PyDict) (k : String) : Option Json :=
  match d with
  | [] => none
  | (k', v) :: rest => if k' = k then some v else dlookup rest k

/-- Python `d.get(k, default)`. -/
def dget (d : PyDict) (k : String) (default : Json) : Json :=
  (dlookup d k).getD default

/-- Python `d[k] = v`: replace in place if the key exists, else append —
CPython keeps the original insertion position on update. -/
def dset (d : PyDict) (k : String) (v : Json) : PyDict :=
  match d with
  | [] => [(k, v)]
  | (k', v') :: rest => if k' = k then (k', v) :: rest else (k', v') :: dset rest k v

/-- The keys of a dict. -/
def dkeys (d : PyDict) : List String := d.map Prod.fst

/-! ### Character-list utilities

`re.sub`, `re.search` and Python's `in` operator are modelled by plain
substring search over `List Char`.  `splitFirst pat s` returns the text
before and after the first occurrence of `pat` in `s`, exactly as the
leftmost regex match of a literal pattern does. -/

abbrev Chars := List Char

/-- Split `s` around the first occurrence of `pat`. -/
def splitFirst (pat : Chars) : Chars → Option (Chars × Chars)
  | [] => if pat.isEmpty then some ([], []) else none
  | c :: cs =>
    if pat.isPrefixOf (c :: cs) then some ([], (c :: cs).drop pat.length)
    else
      match splitFirst pat cs with
      | some (pre, post) => some (c :: pre, post)
      | none => none

/-- Python's `pat in s` substring test. -/
def hasSub (pat s : Chars) : Bool := (splitFirst pat s).isSome

/-! ### Whitespace trimming

Python's `str.strip()` (restricted to the ASCII whitespace the pipeline
ever meets: the model text is ASCII-oriented prose). -/

/-- ASCII whitespace, as in Python's `\s` class and `str.strip`. -/
def wsChar (c : Char) : Bool :=
  c = ' ' || c = '\t' || c = '\n' || c = '\r' || c = '\x0b' || c = '\x0c'

/-- Strip leading whitespace. -/
def trimL (s : Chars) : Chars := s.dropWhile wsChar

/-- Strip trailing whitespace. -/
def trimR (s : Chars) : Chars := (s.reverse.dropWhile wsChar).reverse

/-- Python `s.strip()`. -/
def trimC (s : Chars) : Chars := trimR (trimL s)

/-! ### Removal of `<think>...</think>` spans

`re.sub(r'<think>[\s\S]*?</think>', '', response_text)`: scanning left to
right, each `<think>` opener that has a later `</think>` closer is deleted
together with everything up to the nearest such closer. -/

def thinkOpen : Chars := ['<', 't', 'h', 'i', 'n', 'k', '>']

def thinkClose : Chars := ['<', '/', 't', 'h', 'i', 'n', 'k', '>']

/-- Model of the `re.sub` above, structurally recursive on fuel so that
it evaluates by reduction; `s.length` fuel always suffices because every
recursive call strictly shortens the input (`removeThinkF_congr`).  In
the match branch the continuation is recomputed as a `drop` of the input,
equal to the remainder returned by `splitFirst`
(see `removeThink_step_some`). -/
def removeThinkF : Nat → Chars → Chars
  | 0, s => s
  | _ + 1, [] => []
  | fuel + 1, c :: cs =>
    if thinkOpen.isPrefixOf (c :: cs) then
      match splitFirst thinkClose ((c :: cs).drop thinkOpen.length) with
      | some (pre, _) =>
        removeThinkF fuel
          (((c :: cs).drop thinkOpen.length).drop (pre.length + thinkClose.length))
      | none => c :: removeThinkF fuel cs
    else c :: removeThinkF fuel cs

def removeThink (s : Chars) : Chars := removeThinkF s.length s

/-! ### `json.loads`

A recursive-descent parser for the JSON accepted by Python's `json.loads`
(strict mode): values, objects, arrays, strings with escapes, numbers of
the form `-?(0|[1-9][0-9]*)(\.[0-9]+)?([eE][+-]?[0-9]+)?`, `true`,
`false`, `null`.  Numbers are read as exact rationals (Python converts to
binary floats; every comparison exercised by the claims is far from any
rounding boundary).  The non-standard `NaN`/`Infinity` extensions have no
rational counterpart and are outside the model. -/

/-- JSON inter-token whitespace (Python `json`'s `[ \t\n\r]`). -/
def jsonWs (c : Char) : Bool := c = ' ' || c = '\t' || c = '\n' || c = '\r'

def skipWs (s : Chars) : Chars := s.dropWhile jsonWs

def parseHexDigit (c : Char) : Option Nat :=
  let n := c.toNat
  if 48 ≤ n && n ≤ 57 then some (n - 48)
  else if 97 ≤ n && n ≤ 102 then some (n - 97 + 10)
  else if 65 ≤ n && n ≤ 70 then some (n - 65 + 10)
  else none

/-- Body of a JSON string after the opening quote: returns the decoded
characters and the text after the closing quote.  Raw control characters
are rejected (`strict=True`).  A `\uXXXX` escape denoting a lone
surrogate, which Python would keep as an unpaired surrogate code unit,
falls back to `Char.ofNat`'s default — no claim exercises that corner. -/
def parseStringBody : Chars → Option (Chars × Chars)
  | [] => none
  | c :: rest =>
    if c = '"' then some ([], rest)
    else if c = '\\' then
      match rest with
      | [] => none
      | e :: rest' =>
        if e = '"' then (fun p => ('"' :: p.1, p.2)) <$> parseStringBody rest'
        else if e = '\\' then (fun p => ('\\' :: p.1, p.2)) <$> parseStringBody rest'
        else if e = '/' then (fun p => ('/' :: p.1, p.2)) <$> parseStringBody rest'
        else if e = 'b' then (fun p => ('\x08' :: p.1, p.2)) <$> parseStringBody rest'
        else if e = 'f' then (fun p => ('\x0c' :: p.1, p.2)) <$> parseStringBody rest'
        else if e = 'n' then (fun p => ('\n' :: p.1, p.2)) <$> parseStringBody rest'
        else if e = 'r' then (fun p => ('\r' :: p.1, p.2)) <$> parseStringBody rest'
        else if e = 't' then (fun p => ('\t' :: p.1, p.2)) <$> parseStringBody rest'
        else if e = 'u' then
          match rest' with
          | h1 :: h2 :: h3 :: h4 :: rest'' =>
            match parseHexDigit h1, parseHexDigit h2, parseHexDigit h3, parseHexDigit h4 with
            | some n1, some n2, some n3, some n4 =>
              (fun p => (Char.ofNat (n1 * 4096 + n2 * 256 + n3 * 16 + n4) :: p.1, p.2)) <$>
                parseStringBody rest''
            | _, _, _, _ => none
          | _ => none
        else none
    else if c.toNat < 0x20 then none
    else (fun p => (c :: p.1, p.2)) <$> parseStringBody rest

def digitsToNat (ds : Chars) : Nat := ds.foldl (fun a c => a * 10 + (c.toNat - '0'.toNat)) 0

/-- Optional fraction part `(\.[0-9]+)?`: returns its digits (possibly none). -/
def parseFrac (s : Chars) : Option (Chars × Chars) :=
  match s with
  | '.' :: u =>
    let ds := u.takeWhile Char.isDigit
    if ds.isEmpty then none else some (ds, u.dropWhile Char.isDigit)
  | _ => some ([], s)

/-- Optional exponent part `([eE][+-]?[0-9]+)?`: returns its signed value. -/
def parseExp (s : Chars) : Option (Int × Chars) :=
  match s with
  | [] => some (0, [])
  | c :: u =>
    if c = 'e' || c = 'E' then
      let su : Bool × Chars :=
        match u with
        | '+' :: w => (false, w)
        | '-' :: w => (true, w)
        | _ => (false, u)
      let ds := su.2.takeWhile Char.isDigit
      if ds.isEmpty then none
      else
        some ((if su.1 then -(digitsToNat ds : Int) else (digitsToNat ds : Int)),
          su.2.dropWhile Char.isDigit)
    else some (0, c :: u)

/-- JSON number: `-?(0|[1-9][0-9]*)` then optional fraction and exponent,
valued exactly in `ℚ` (built with `mkRat` so that it evaluates by
reduction: the value is `±(ipart·10^f + fpart) · 10^exp / 10^f` where `f`
is the number of fraction digits). -/
def parseNumber (s : Chars) : Option (ℚ × Chars) :=
  let ns : Bool × Chars := match s with | '-' :: t => (true, t) | _ => (false, s)
  match ns.2 with
  | [] => none
  | c :: t =>
    if c.isDigit then
      let is2 : Chars × Chars :=
        if c = '0' then (['0'], t)
        else (ns.2.takeWhile Char.isDigit, ns.2.dropWhile Char.isDigit)
      match parseFrac is2.2 with
      | none => none
      | some (fr, s3) =>
        match parseExp s3 with
        | none => none
        | some (ex, s4) =>
          let den : Nat := 10 ^ fr.length
          let mant : Nat := digitsToNat is2.1 * den + digitsToNat fr
          let v : ℚ :=
            match ex with
            | Int.ofNat e => mkRat (Int.ofNat (mant * 10 ^ e)) den
            | Int.negSucc e => mkRat (Int.ofNat mant) (den * 10 ^ (e + 1))
          some ((if ns.1 then -v else v), s4)
    else none

/-- CPython's json object construction: successive `d[k] = v` assignments,
so a duplicated key keeps its first position with the last value. -/
def objFromList (kvs : List (String × Json)) : PyDict :=
  kvs.foldl (fun d kv => dset d kv.1 kv.2) []

mutual

/-- One JSON value; the `Nat` is recursion fuel.  Every recursive call
consumes at least one input character, so `length + 1` fuel always
suffices (see `loadsC`). -/
def parseVal : Nat → Chars → Option (Json × Chars)
  | 0, _ => none
  | fuel + 1, s =>
    match s with
    | [] => none
    | c :: rest =>
      if c = '{' then
        match skipWs rest with
        | '}' :: r => some (.obj [], r)
        | s1 => do
          let (kvs, r) ← parseMembers fuel s1
          some (.obj (objFromList kvs), r)
      else if c = '[' then
        match skipWs rest with
        | ']' :: r => some (.arr [], r)
        | s1 => do
          let (xs, r) ← parseElems fuel s1
          some (.arr xs, r)
      else if c = '"' then do
        let (cs, r) ← parseStringBody rest
        some (.str (String.mk cs), r)
      else if c = 't' then
        if ['r', 'u', 'e'].isPrefixOf rest then some (.bool true, rest.drop 3) else none
      else if c = 'f' then
        if ['a', 'l', 's', 'e'].isPrefixOf rest then some (.bool false, rest.drop 4) else none
      else if c = 'n' then
        if ['u', 'l', 'l'].isPrefixOf rest then some (.null, rest.drop 3) else none
      else do
        let (q, r) ← parseNumber (c :: rest)
        some (.num q, r)

/-- Members of an object after `{` and leading whitespace (non-empty case). -/
def parseMembers : Nat → Chars → Option (List (String × Json) × Chars)
  | 0, _ => none
  | fuel + 1, s =>
    match s with
    | '"' :: rest => do
      let (k, r1) ← parseStringBody rest
      match skipWs r1 with
      | ':' :: r3 => do
        let (v, r4) ← parseVal fuel (skipWs r3)
        match skipWs r4 with
        | ',' :: r6 => do
          let (kvs, r7) ← parseMembers fuel (skipWs r6)
          some ((String.mk k, v) :: kvs, r7)
        | '}' :: r6 => some ([(String.mk k, v)], r6)
        | _ => none
      | _ => none
    | _ => none

/-- Elements of an array after `[` and leading whitespace (non-empty case). -/
def parseElems : Nat → Chars → Option (List Json × Chars)
  | 0, _ => none
  | fuel + 1, s => do
    let (v, r1) ← parseVal fuel s
    match skipWs r1 with
    | ',' :: r3 => do
      let (xs, r4) ← parseElems fuel (skipWs r3)
      some (v :: xs, r4)
    | ']' :: r3 => some ([v], r3)
    | _ => none

end

/-- `json.loads` on a character list: a single value, with surrounding
whitespace allowed and nothing after it. -/
def loadsC (s : Chars) : Option Json :=
  match parseVal (s.length + 1) (skipWs s) with
  | some (v, rest) => if (skipWs rest).isEmpty then some v else none
  | none => none

/-- `json.loads` on a Python string. -/
def loads (s : String) : Option Json := loadsC s.data

/-! ### `json.dumps`

Default settings: `ensure_ascii=True`, separators `", "` and `": "`.
Integers print exactly.  A non-integral rational has no Python-int
counterpart (it models a float, whose shortest-repr printing is outside
the exact model), so it is rendered as `num/den`; the round-trip theorem
is stated over the integral fragment. -/

def digitChar (n : Nat) : Char := Char.ofNat ('0'.toNat + n)

def natChars (n : Nat) : Chars :=
  if h : n < 10 then [digitChar n]
  else natChars (n / 10) ++ [digitChar (n % 10)]
termination_by n
decreasing_by omega

def intChars (n : Int) : Chars :=
  if n < 0 then '-' :: natChars (-n).toNat else natChars n.toNat

def hexChar (n : Nat) : Char :=
  if n < 10 then Char.ofNat ('0'.toNat + n) else Char.ofNat ('a'.toNat + (n - 10))

/-- `json.dumps` escaping of one character (`ensure_ascii=True`).
Characters beyond the BMP become surrogate pairs in Python; safe strings
(the round-trip fragment) never reach the `\uXXXX` branch at all. -/
def escChar (c : Char) : Chars :=
  if c = '"' then ['\\', '"']
  else if c = '\\' then ['\\', '\\']
  else if c = '\n' then ['\\', 'n']
  else if c = '\r' then ['\\', 'r']
  else if c = '\t' then ['\\', 't']
  else if c = '\x08' then ['\\', 'b']
  else if c = '\x0c' then ['\\', 'f']
  else if c.toNat < 0x20 || 0x7e < c.toNat then
    ['\\', 'u', hexChar (c.toNat / 4096 % 16), hexChar (c.toNat / 256 % 16),
      hexChar (c.toNat / 16 % 16), hexChar (c.toNat % 16)]
  else [c]

def escStr : Chars → Chars
  | [] => []
  | c :: cs => escChar c ++ escStr cs

def serNum (q : ℚ) : Chars :=
  if q.den = 1 then intChars q.num
  else intChars q.num ++ '/' :: natChars q.den

mutual

def serVal : Json → Chars
  | .null => ['n', 'u', 'l', 'l']
  | .num q => serNum q
  | .str s => '"' :: (escStr s.data ++ ['"'])
  | .bool true => ['t', 'r', 'u', 'e']
  | .bool false => ['f', 'a', 'l', 's', 'e']
  | .arr [] => ['[', ']']
  | .arr (x :: xs) => '[' :: (serElems x xs ++ [']'])
  | .obj [] => ['{', '}']
  | .obj (kv :: kvs) => '{' :: (serMembers kv kvs ++ ['}'])
termination_by j => sizeOf j
decreasing_by all_goals (simp_wf <;> omega)

def serElems : Json → List Json → Chars
  | x, [] => serVal x
  | x, y :: xs => serVal x ++ ',' :: ' ' :: serElems y xs
termination_by x xs => 1 + sizeOf x + sizeOf xs
decreasing_by all_goals (simp_wf <;> omega)

def serMembers : String × Json → List (String × Json) → Chars
  | (k, v), [] => '"' :: (escStr k.data ++ '"' :: ':' :: ' ' :: serVal v)
  | (k, v), kv :: kvs =>
    ('"' :: (escStr k.data ++ '"' :: ':' :: ' ' :: serVal v)) ++
      ',' :: ' ' :: serMembers kv kvs
termination_by kv kvs => 1 + sizeOf kv + sizeOf kvs
decreasing_by all_goals (simp_wf <;> omega)

end

/-- `json.dumps` with default settings. -/
def dumps (j : Json) : String := String.mk (serVal j)

/-! ### Exceptions

The Python exceptions that can travel through this pipeline.
`json.JSONDecodeError` is a subclass of `ValueError`; its message carries
only positional information ("Expecting value: line 1 column 1"), never
the parsed document, so the model elides it. -/

inductive PyExc where
  | typeError (msg : String)
  | valueError (msg : String)
  | jsonDecodeError
  | transportError (msg : String)
deriving DecidableEq, Repr

/-- Python's `isinstance(e, ValueError)`. -/
def PyExc.isValueErrorClass : PyExc → Bool
  | .valueError _ => true
  | .jsonDecodeError => true
  | _ => false

/-- Python's `str(e)`. -/
def PyExc.msg : PyExc → String
  | .typeError m => m
  | .valueError m => m
  | .jsonDecodeError => "Expecting value"
  | .transportError m => m

/-- `json.loads` raising `json.JSONDecodeError` on failure. -/
def loadsE (s : String) : Except PyExc Json :=
  match loads s with
  | some j => .ok j
  | none => .error .jsonDecodeError

/-! ### The Model Response Extractor (`app/utils/llm_parsers.py`) -/

def fenceOpen : Chars := ['`', '`', '`', 'j', 's', 'o', 'n']

def fenceMark : Chars := ['`', '`', '`']

def braceL : Char := Char.ofNat 123

def braceR : Char := Char.ofNat 125

/-- `re.search(r'(\{[\s\S]*\})', s)`: from the first opening brace to the
last closing brace, which must lie after it. -/
def braceSpan (s : Chars) : Option Chars :=
  match splitFirst [braceL] s with
  | none => none
  | some (_, afterL) =>
    match splitFirst [braceR] afterL.reverse with
    | none => none
    | some (_, revMid) => some (braceL :: (revMid.reverse ++ [braceR]))

/-- `re.sub(r'<think>[\s\S]*?</think>', '', response_text).strip()`:
the text the extractor's two regex searches run on. -/
def withoutThinking (response_text : String) : Chars :=
  trimC (removeThink response_text.data)

/-- `extract_json_from_model_response`: strip `<think>` spans, take the
first fenced ```json block if one is closed, else the brace span, and
`json.loads` it; the decode error of a failing candidate propagates, and
with no candidate at all a plain `ValueError` is raised. -/
def extract_json_from_model_response (response_text : String) : Except PyExc Json :=
  match splitFirst fenceOpen (withoutThinking response_text) with
  | some (_, afterOpen) =>
    match splitFirst fenceMark afterOpen with
    | some (interior, _) => loadsE (String.mk (trimC interior))
    | none =>
      match braceSpan (withoutThinking response_text) with
      | some cand => loadsE (String.mk (trimC cand))
      | none => .error (.valueError "No JSON object found in response")
  | none =>
    match braceSpan (withoutThinking response_text) with
    | some cand => loadsE (String.mk (trimC cand))
    | none => .error (.valueError "No JSON object found in response")

/-! ### The Model Client (`app/services/ai_service.py`)

`AIService.get_analysis` sends two messages to the Ollama backend and
feeds the returned text to the extractor.  The backend interaction is
abstracted as a `ChatOutcome`: either the reply text, or the exception
message the `ollama` client raised (its failures are transport-level and
never `json.JSONDecodeError`). -/

inductive ChatOutcome where
  | success (content : String)
  | failure (msg : String)

/-- The degraded mapping built when even the brace-span retry fails:
`{"error": ..., "raw_response": content[:500]}`. -/
def errDict (content : String) : PyDict :=
  [("error", Json.str "Failed to parse model response as JSON"),
   ("raw_response", Json.str (String.mk (content.data.take 500)))]

/-- `AIService.get_analysis`.  The `except json.JSONDecodeError` handler
re-searches the raw content for a brace span and falls back to `errDict`;
every other exception is re-raised by `except Exception: raise`. -/
def get_analysis (outcome : ChatOutcome) : Except PyExc Json :=
  match outcome with
  | .failure msg => .error (.transportError msg)
  | .success content =>
    match extract_json_from_model_response content with
    | .ok j => .ok j
    | .error .jsonDecodeError =>
      match braceSpan content.data with
      | some cand =>
        match loadsE (String.mk cand) with
        | .ok j => .ok j
        | .error _ => .ok (.obj (errDict content))
      | none => .ok (.obj (errDict content))
    | .error e => .error e

/-! ### Python dynamic operations used by the movement fallback

`_fallback_movement_analysis` runs `sum`, `max`, `/`, `*` and `>` on
whatever values the request carried under `"speed"`; any of these can
raise `TypeError` at run time, which the fallback's inner `except`
absorbs.  Re list/dict operands: comparisons between such containers are
unreachable here because `sum` (which starts from the int `0`) fails
first on them, so the model folds them into the `TypeError` case too. -/

/-- Numeric view of a Python value: ints/floats are `ℚ`, and `bool` is an
int subclass (`True == 1`). -/
def asNum : Json → Option ℚ
  | .num q => some q
  | .bool b => some (if b then 1 else 0)
  | _ => none

def pyAdd (acc : ℚ) (b : Json) : Except PyExc ℚ :=
  match asNum b with
  | some y => .ok (acc + y)
  | none => .error (.typeError "unsupported operand type(s) for +")

/-- `sum(l)`: fold from the int `0`. -/
def pySum (l : List Json) : Except PyExc ℚ := l.foldlM pyAdd 0

/-- Python `a > b`. -/
def pyGtB (a b : Json) : Except PyExc Bool :=
  match a, b with
  | .str x, .str y => .ok (decide (y < x))
  | _, _ =>
    match asNum a, asNum b with
    | some x, some y => .ok (decide (y < x))
    | _, _ => .error (.typeError "'>' not supported between operand types")

/-- Python `a * q` for a float literal `q` (`1.2` or `1.5` here): numbers
multiply; `str * float` and `list * float` raise `TypeError`. -/
def pyMulQ (a : Json) (q : ℚ) : Except PyExc Json :=
  match asNum a with
  | some x => .ok (.num (x * q))
  | none => .error (.typeError "unsupported operand type for *")

/-- Python `max(x :: xs)`: left fold keeping the later element only when
strictly greater. -/
def pyMaxList (x : Json) (xs : List Json) : Except PyExc Json :=
  xs.foldlM (fun acc v => do
    let b ← pyGtB v acc
    pure (if b then v else acc)) x

/-! ### Movement analysis service (`app/services/movement.py`) -/

/-- `[point.get("speed", 0) for point in historical_data if
point.get("speed") is not None]`: the values stored under `"speed"`,
skipping missing keys and explicit `None`s. -/
def speedsOf (historical_data : List PyDict) : List Json :=
  historical_data.filterMap (fun point =>
    match dlookup point "speed" with
    | some (Json.null) => none
    | some v => some v
    | none => none)

/-- Line 66 of `movement.py`:
`sum(historical_speeds) / len(historical_speeds) if historical_speeds else 0`. -/
def avgOr0 (l : List Json) : Except PyExc Json :=
  if l.isEmpty then pure (Json.num 0)
  else do
    let s ← pySum l
    pure (Json.num (s / (l.length : ℚ)))

/-- Line 67 of `movement.py`:
`max(historical_speeds) if historical_speeds else 0`. -/
def pyMaxOr0 (l : List Json) : Except PyExc Json :=
  match l with
  | [] => pure (Json.num 0)
  | x :: xs => pyMaxList x xs

/-- Lines 59–73 of `movement.py`: the computation inside the fallback's
`try`, up to the `abnormal_speed` flag (the only fallible part; the dict
literal after it cannot raise).  Evaluation order and the `or`
short-circuit follow the source. -/
def movementCore (historical_data : List PyDict) (current_data : PyDict) :
    Except PyExc Bool := do
  let current_speed := dget current_data "speed" (.num 0)
  let historical_speeds := speedsOf historical_data
  let avg_speed : Json ← avgOr0 historical_speeds
  let max_speed : Json ← pyMaxOr0 historical_speeds
  let m1 ← pyMulQ max_speed (6 / 5 : ℚ)
  let t1 ← pyGtB current_speed m1
  if t1 then pure true
  else do
    let m2 ← pyMulQ avg_speed (3 / 2 : ℚ)
    pyGtB current_speed m2

/-- `MovementAnalysisService._fallback_movement_analysis`. -/
def fallback_movement_analysis (historical_data : List PyDict) (current_data : PyDict)
    (user_id now : String) : PyDict :=
  match movementCore historical_data current_data with
  | .ok abnormal =>
    [("abnormal_speed", Json.bool abnormal),
     ("sudden_stop", Json.bool false),
     ("route_deviation", Json.bool false),
     ("safety_concerns", Json.bool abnormal),
     ("risk_level", Json.num (if abnormal then 7 else 2)),
     ("reasoning", Json.str "Fallback analysis: Speed analysis only"),
     ("recommended_action",
       Json.str (if abnormal then "Monitor speed" else "No action needed")),
     ("is_fallback", Json.bool true),
     ("analysis_timestamp", Json.str now),
     ("user_id", Json.str user_id)]
  | .error e =>
    [("abnormal_speed", Json.bool false),
     ("sudden_stop", Json.bool false),
     ("route_deviation", Json.bool false),
     ("safety_concerns", Json.bool false),
     ("risk_level", Json.num 1),
     ("reasoning", Json.str "Error in analysis system"),
     ("recommended_action", Json.str "Check system logs"),
     ("is_fallback", Json.bool true),
     ("error", Json.str e.msg),
     ("analysis_timestamp", Json.str now),
     ("user_id", Json.str user_id)]

/-- `MovementAnalysisService.analyze_movement`.  The prompt construction
on line 33 is a pure f-string over `json.dumps` and cannot raise; the
backend call is abstracted by `outcome`.  A non-dict JSON result makes
the metadata assignment on line 40 raise `TypeError`, which the
service-level `except Exception` turns into the fallback, exactly like a
raised `get_analysis` error. -/
def analyze_movement (outcome : ChatOutcome) (historical_data : List PyDict)
    (current_data : PyDict) (user_id now : String) : PyDict :=
  match get_analysis outcome with
  | .ok (.obj d) =>
    dset (dset d "analysis_timestamp" (Json.str now)) "user_id" (Json.str user_id)
  | .ok _ => fallback_movement_analysis historical_data current_data user_id now
  | .error _ => fallback_movement_analysis historical_data current_data user_id now

/-! ### Route safety service (`app/services/route_safety.py`) -/

/-- ASCII lowering of one character, as Python `str.lower()` acts on the
ASCII range (the vocabulary matched against is ASCII). -/
def lowerChar (c : Char) : Char :=
  if 'A' ≤ c && c ≤ 'Z' then Char.ofNat (c.toNat + 32) else c

/-- Python `str.lower()` (restricted to ASCII). -/
def pyLower (s : String) : String := String.mk (s.data.map lowerChar)

/-- Lines 62–72 of `route_safety.py`: crime count, base safety score,
time-of-day concern, adjusted score. -/
def routeSafetyCore (crime_data : List PyDict) (time_of_day : String) : Int × Bool :=
  let crime_count : Int := crime_data.length
  let base : Int := if crime_count < 10 then max (10 - crime_count) 1 else 1
  let night_hours : List String := ["evening", "night", "late"]
  let time_concerns := night_hours.any (fun w => hasSub w.data (pyLower time_of_day).data)
  let score : Int := if time_concerns then max (base - 2) 1 else base
  (score, time_concerns)

/-- The dict built by the `except` branch of
`RouteSafetyService._fallback_route_safety` (lines 86–96). -/
def routeSafetyDegraded (errMsg user_id now : String) : PyDict :=
  [("safety_score", Json.num 5),
   ("risky_segments", Json.arr []),
   ("time_of_day_concerns", Json.bool false),
   ("recommendation", Json.str "Error in analysis system"),
   ("safe_alternative_available", Json.bool false),
   ("is_fallback", Json.bool true),
   ("error", Json.str errMsg),
   ("analysis_timestamp", Json.str now),
   ("user_id", Json.str user_id)]

/-- `RouteSafetyService._fallback_route_safety`.  The source wraps the
body in `try/except` producing `routeSafetyDegraded` on an internal
error; for pydantic-validated inputs (`crime_data : List[Dict]`,
`time_of_day : str`) every step of the body — `len`, integer arithmetic,
`str.lower`, substring tests, the dict literal — is total, so the
`except` branch is unreachable and the model returns the `try` result. -/
def fallback_route_safety (route_points crime_data : List PyDict)
    (time_of_day user_id now : String) : PyDict :=
  let rc := routeSafetyCore crime_data time_of_day
  [("safety_score", Json.num (rc.1 : ℚ)),
   ("risky_segments", Json.arr []),
   ("time_of_day_concerns", Json.bool rc.2),
   ("recommendation",
     Json.str (if rc.2 then "Consider daytime travel" else "Route appears acceptable")),
   ("safe_alternative_available", Json.bool false),
   ("is_fallback", Json.bool true),
   ("analysis_timestamp", Json.str now),
   ("user_id", Json.str user_id)]

/-- `RouteSafetyService.analyze_route_safety`; same structure as
`analyze_movement`. -/
def analyze_route_safety (outcome : ChatOutcome) (route_points crime_data : List PyDict)
    (time_of_day user_id now : String) : PyDict :=
  match get_analysis outcome with
  | .ok (.obj d) =>
    dset (dset d "analysis_timestamp" (Json.str now)) "user_id" (Json.str user_id)
  | .ok _ => fallback_route_safety route_points crime_data time_of_day user_id now
  | .error _ => fallback_route_safety route_points crime_data time_of_day user_id now

/-! ### Specification-side definitions

These follow the wording of the design spec (not the source) and are
compared against the source-derived definitions by the theorems below. -/

/-- Spec: "compute historical mean ... (treat empty history as mean=0)". -/
def specMean (qs : List ℚ) : ℚ := if qs.isEmpty then 0 else qs.sum / qs.length

/-- Spec: "... and max speed" (empty history gives 0). -/
def specMax (qs : List ℚ) : ℚ :=
  match qs with
  | [] => 0
  | x :: xs => xs.foldl max x

/-- Numeric view of a list of values: defined when every value is a
number. -/
def numView : List Json → Option (List ℚ)
  | [] => some []
  | .num q :: vs => (numView vs).map (q :: ·)
  | _ => none

/-- The numeric speeds of the speed-carrying samples, defined when every
such sample stores a number. -/
def numSpeedsOf (historical_data : List PyDict) : Option (List ℚ) :=
  numView (speedsOf historical_data)

/-- Spec: "`safety_score = max(10 − count(crime_data), 1)` if count < 10
else `1`; if time-of-day concern, subtract 2 more (floor 1)". -/
def specRouteScore (count : Int) (concern : Bool) : Int :=
  let base : Int := if count < 10 then max (10 - count) 1 else 1
  if concern then max (base - 2) 1 else base

/-- Spec: "`time_of_day` case-insensitively contains any of
{"evening","night","late"}". -/
def specTimeConcern (time_of_day : String) : Bool :=
  hasSub "evening".data (pyLower time_of_day).data ||
    hasSub "night".data (pyLower time_of_day).data ||
    hasSub "late".data (pyLower time_of_day).data

/-- Spec: "text containing a fenced ```json block with valid JSON". -/
def specContainsFencedJson (t : String) : Prop :=
  ∃ pre mid post,
    t.data = pre ++ fenceOpen ++ mid ++ fenceMark ++ post ∧
      (loadsC (trimC mid)).isSome

/-- Spec: the error "carr[ies] the first ~500 characters of the original
text": those characters appear inside the error's message. -/
def specCarriesInputPrefix (input msg : String) : Prop :=
  hasSub (input.data.take 500) msg.data = true

/-! ### The safe fragment for the serialization round trip

`jsafe` delimits the values on which `dumps` output re-parses verbatim:
integral numbers (Python ints), printable-ASCII strings free of `"`,
`\` and backticks, and objects with pairwise-distinct keys. -/

def safeChar (c : Char) : Bool :=
  0x20 ≤ c.toNat && c.toNat ≤ 0x7e && c ≠ '"' && c ≠ '\\' && c ≠ '`'

def safeStr (s : String) : Bool := s.data.all safeChar

def nodupKeys : List String → Bool
  | [] => true
  | k :: ks => !ks.contains k && nodupKeys ks

mutual

def jsafe : Json → Bool
  | .null => true
  | .bool _ => true
  | .num q => q.den == 1
  | .str s => safeStr s
  | .arr xs => jsafeList xs
  | .obj kvs => jsafeObj kvs && nodupKeys (kvs.map Prod.fst)
termination_by j => sizeOf j
decreasing_by all_goals (simp_wf <;> omega)

def jsafeList : List Json → Bool
  | [] => true
  | x :: xs => jsafe x && jsafeList xs
termination_by xs => sizeOf xs
decreasing_by all_goals (simp_wf <;> omega)

def jsafeObj : List (String × Json) → Bool
  | [] => true
  | (k, v) :: kvs => safeStr k && jsafe v && jsafeObj kvs
termination_by kvs => sizeOf kvs
decreasing_by all_goals (simp_wf <;> omega)

end


/-- The characters that may legally follow a serialized JSON value inside
a larger serialization (or the end of input): exactly the contexts in
which `serVal` output is re-read by the parser. -/
def delimOk : Chars → Bool
  | [] => true
  | c :: _ => c = ',' || c = '}' || c = ']'

/-! ### Library lemmas about the embedded operations -/

theorem dlookup_dset_self (d : PyDict) (k : String) (v : Json) :
    dlookup (dset d k v) k = some v := by
  induction d with
  | nil => simp [dset, dlookup]
  | cons p rest ih =>
    obtain ⟨k', v'⟩ := p
    by_cases h : k' = k <;> simp [dset, dlookup, h, ih]

theorem dlookup_dset_other (d : PyDict) (k k' : String) (v : Json) (h : k' ≠ k) :
    dlookup (dset d k v) k' = dlookup d k' := by
  induction d with
  | nil => simp [dset, dlookup, Ne.symm h]
  | cons p rest ih =>
    obtain ⟨k₀, v₀⟩ := p
    by_cases h0 : k₀ = k
    · subst h0
      simp [dset, dlookup, Ne.symm h]
    · simp only [dset, if_neg h0, dlookup, ih]

theorem dkeys_dset (d : PyDict) (k : String) (v : Json) :
    dkeys (dset d k v) = if k ∈ dkeys d then dkeys d else dkeys d ++ [k] := by
  induction d with
  | nil => simp [dset, dkeys]
  | cons p rest ih =>
    obtain ⟨k₀, v₀⟩ := p
    by_cases h : k₀ = k
    · subst h; simp [dset, dkeys]
    · have hne : k ≠ k₀ := fun h' => h h'.symm
      simp only [dset, if_neg h, dkeys, List.map_cons]
      simp only [dkeys] at ih
      rw [ih]
      by_cases hm : k ∈ List.map Prod.fst rest
      · simp [List.mem_cons, hm, hne]
      · simp [List.mem_cons, hm, hne]

theorem splitFirst_sound {pat s a b : Chars} (h : splitFirst pat s = some (a, b)) :
    s = a ++ pat ++ b := by
  induction s generalizing a with
  | nil =>
    simp only [splitFirst] at h
    by_cases hp : pat.isEmpty
    · rw [if_pos hp] at h
      rw [List.isEmpty_iff] at hp
      injection h with h'
      injection h' with h1 h2
      subst h1; subst h2; subst hp
      rfl
    · rw [if_neg hp] at h
      exact absurd h (by simp)
  | cons c cs ih =>
    simp only [splitFirst] at h
    by_cases hp : pat.isPrefixOf (c :: cs)
    · rw [if_pos hp] at h
      injection h with h'
      injection h' with h1 h2
      obtain ⟨rest, hrest⟩ := (List.isPrefixOf_iff_prefix.mp hp)
      subst h1
      rw [← h2, ← hrest, List.nil_append, List.drop_left]
    · rw [if_neg hp] at h
      cases hsf : splitFirst pat cs with
      | none => rw [hsf] at h; exact absurd h (by simp)
      | some p =>
        obtain ⟨pre, post⟩ := p
        rw [hsf] at h
        injection h with h'
        injection h' with h1 h2
        subst h2
        rw [← h1, List.cons_append, List.cons_append, ← ih hsf]

theorem splitFirst_cons_isSome {pat s : Chars} (c : Char)
    (h : (splitFirst pat s).isSome) : (splitFirst pat (c :: s)).isSome := by
  simp only [splitFirst]
  by_cases hp : pat.isPrefixOf (c :: s)
  · rw [if_pos hp]; simp
  · rw [if_neg hp]
    cases hsf : splitFirst pat s with
    | none => rw [hsf] at h; simp at h
    | some p => obtain ⟨u, v⟩ := p; simp

theorem splitFirst_isSome_of_eq_append {pat : Chars} (hne : pat ≠ []) :
    ∀ (x y : Chars), (splitFirst pat (x ++ pat ++ y)).isSome := by
  intro x
  induction x with
  | nil =>
    intro y
    obtain ⟨c, pat', rfl⟩ := List.exists_cons_of_ne_nil hne
    show (splitFirst (c :: pat') (c :: (pat' ++ y))).isSome
    simp only [splitFirst]
    have hp : (c :: pat').isPrefixOf (c :: (pat' ++ y)) = true :=
      List.isPrefixOf_iff_prefix.mpr ⟨y, rfl⟩
    rw [if_pos hp]
    simp
  | cons c x ih =>
    intro y
    show (splitFirst pat (c :: (x ++ pat ++ y))).isSome
    exact splitFirst_cons_isSome c (ih y)

theorem hasSub_iff {pat s : Chars} (hne : pat ≠ []) :
    hasSub pat s = true ↔ ∃ x y, s = x ++ pat ++ y := by
  constructor
  · intro h
    rw [hasSub, Option.isSome_iff_exists] at h
    obtain ⟨⟨a, b⟩, hab⟩ := h
    exact ⟨a, b, splitFirst_sound hab⟩
  · rintro ⟨x, y, rfl⟩
    exact splitFirst_isSome_of_eq_append hne x y

theorem hasSub_cons_false {pat : Chars} {c : Char} {cs : Chars} (hne : pat ≠ [])
    (h : hasSub pat (c :: cs) = false) : hasSub pat cs = false := by
  by_contra hcs
  rw [Bool.not_eq_false, hasSub_iff hne] at hcs
  obtain ⟨x, y, rfl⟩ := hcs
  have : hasSub pat (c :: (x ++ pat ++ y)) = true :=
    (hasSub_iff hne).mpr ⟨c :: x, y, by simp⟩
  rw [h] at this
  exact absurd this (by simp)

/-- If `pat` occurs nowhere strictly before the designated occurrence,
`splitFirst` finds exactly that occurrence. -/
theorem splitFirst_append {pat : Chars} (hne : pat ≠ []) :
    ∀ (a b : Chars),
      (∀ a₁ a₂, a = a₁ ++ a₂ → a₂ ≠ [] → ¬ pat.isPrefixOf (a₂ ++ pat ++ b)) →
      splitFirst pat (a ++ pat ++ b) = some (a, b) := by
  intro a
  induction a with
  | nil =>
    intro b _
    obtain ⟨c, pat', rfl⟩ := List.exists_cons_of_ne_nil hne
    show splitFirst (c :: pat') (c :: (pat' ++ b)) = some ([], b)
    simp only [splitFirst]
    have hp : (c :: pat').isPrefixOf (c :: (pat' ++ b)) = true :=
      List.isPrefixOf_iff_prefix.mpr ⟨b, rfl⟩
    rw [if_pos hp]
    simp only [Option.some.injEq, Prod.mk.injEq, true_and]
    rw [List.length_cons, List.drop_succ_cons, List.drop_left]
  | cons c a ih =>
    intro b hfirst
    have hnp : ¬ pat.isPrefixOf (c :: (a ++ pat ++ b)) := by
      have := hfirst [] (c :: a) rfl (by simp)
      exact this
    have hrec := ih b (fun a₁ a₂ h12 h2 =>
      hfirst (c :: a₁) a₂ (by rw [h12]; rfl) h2)
    show splitFirst pat (c :: (a ++ pat ++ b)) = some (c :: a, b)
    simp only [splitFirst]
    rw [if_neg hnp, hrec]

/-- Specialization: the first character of `pat` does not occur in `a`. -/
theorem splitFirst_append_of_head_notin {pat a b : Chars} {c : Char} {pat' : Chars}
    (hpat : pat = c :: pat') (hc : c ∉ a) :
    splitFirst pat (a ++ pat ++ b) = some (a, b) := by
  subst hpat
  refine splitFirst_append (by simp) a b ?_
  rintro a₁ a₂ rfl h2 hpre
  obtain ⟨d, a₂', rfl⟩ := List.exists_cons_of_ne_nil h2
  rw [List.isPrefixOf_iff_prefix] at hpre
  obtain ⟨t, ht⟩ := hpre
  simp only [List.cons_append] at ht
  injection ht with hcd _
  exact hc (by simp [← hcd])

/-- Specialization: `pat` has no proper self-overlap and does not occur
inside `a` at all. -/
theorem splitFirst_append_of_no_selfoverlap {pat a b : Chars}
    (hne : pat ≠ [])
    (hno : ∀ k, 0 < k → k < pat.length → ¬ (pat.drop k) <+: pat)
    (ha : hasSub pat a = false) :
    splitFirst pat (a ++ pat ++ b) = some (a, b) := by
  refine splitFirst_append hne a b ?_
  intro a₁ a₂ h12 h2 hpre
  rw [List.isPrefixOf_iff_prefix] at hpre
  by_cases hlen : pat.length ≤ a₂.length
  · have hpa : pat <+: a₂ := by
      refine List.prefix_of_prefix_length_le hpre ?_ hlen
      exact ⟨pat ++ b, by simp⟩
    obtain ⟨t, ht⟩ := hpa
    have : hasSub pat a = true :=
      (hasSub_iff hne).mpr ⟨a₁, t, by rw [h12, ← ht]; simp⟩
    rw [ha] at this
    exact absurd this (by simp)
  · push_neg at hlen
    have ha2 : a₂ <+: pat := by
      refine List.prefix_of_prefix_length_le ?_ hpre (le_of_lt hlen)
      exact ⟨pat ++ b, by simp⟩
    have hk := hno a₂.length (by cases a₂ with
      | nil => exact absurd rfl h2
      | cons _ _ => simp) hlen
    apply hk
    have ha2take : a₂ = pat.take a₂.length := List.prefix_iff_eq_take.mp ha2
    have hsplit : pat.take a₂.length ++ pat.drop a₂.length = pat := List.take_append_drop _ _
    obtain ⟨t, ht⟩ := hpre
    rw [ha2take] at ht
    have h1 : (pat.take a₂.length ++ pat.drop a₂.length) ++ t
        = pat.take a₂.length ++ (pat ++ b) := by
      rw [hsplit, ht, List.append_assoc]
    rw [List.append_assoc] at h1
    have h2' := List.append_cancel_left h1
    have hdp : pat.drop a₂.length <+: pat ++ b := ⟨t, h2'⟩
    refine List.prefix_of_prefix_length_le hdp ?_ (by simp)
    exact ⟨b, rfl⟩

theorem trimL_append {a rest : Chars} {c : Char}
    (hc : rest.head? = some c) (hw : wsChar c = false) :
    trimL (a ++ rest) = trimL a ++ rest := by
  cases rest with
  | nil => simp at hc
  | cons r rs =>
    injection hc with hc
    subst hc
    rw [trimL, List.dropWhile_append]
    by_cases he : (a.dropWhile wsChar).isEmpty
    · rw [if_pos he]
      rw [List.isEmpty_iff] at he
      rw [trimL, he, List.nil_append, List.dropWhile_cons_of_neg (by simp [hw])]
    · rw [if_neg he]; rfl

theorem trimR_append {rest b : Chars} {c : Char}
    (hc : rest.getLast? = some c) (hw : wsChar c = false) :
    trimR (rest ++ b) = rest ++ trimR b := by
  rw [trimR, List.reverse_append, List.dropWhile_append]
  have hrev : rest.reverse.head? = some c := by rw [List.head?_reverse _, hc]
  cases hrr : rest.reverse with
  | nil => rw [hrr] at hrev; simp at hrev
  | cons r rs =>
    rw [hrr] at hrev
    injection hrev with hrev
    subst hrev
    by_cases he : (b.reverse.dropWhile wsChar).isEmpty
    · rw [if_pos he]
      rw [List.isEmpty_iff] at he
      rw [List.dropWhile_cons_of_neg (by simp [hw]), ← hrr, List.reverse_reverse, trimR, he]
      simp
    · rw [if_neg he, ← hrr, List.reverse_append, List.reverse_reverse, trimR]

theorem trimC_append {a m b : Chars} {c c' : Char}
    (hhead : m.head? = some c) (hwc : wsChar c = false)
    (hlast : m.getLast? = some c') (hwc' : wsChar c' = false) :
    trimC (a ++ m ++ b) = trimL a ++ m ++ trimR b := by
  have hmne : m ≠ [] := by cases m <;> simp_all
  rw [trimC, List.append_assoc]
  rw [trimL_append (by cases m <;> simp_all) hwc]
  rw [← List.append_assoc]
  rw [trimR_append (c := c') (by rw [List.getLast?_append_of_ne_nil _ hmne, hlast]) hwc']

theorem mem_trimL {a : Chars} {c : Char} (h : c ∈ trimL a) : c ∈ a :=
  List.Sublist.mem h (List.dropWhile_sublist _)

theorem hasSub_trimL {pat a : Chars} (hne : pat ≠ []) (h : hasSub pat a = false) :
    hasSub pat (trimL a) = false := by
  by_contra hc
  rw [Bool.not_eq_false, hasSub_iff hne] at hc
  obtain ⟨x, y, hxy⟩ := hc
  obtain ⟨u, hu⟩ := List.dropWhile_suffix (l := a) wsChar
  rw [Bool.eq_false_iff] at h
  apply h
  rw [hasSub_iff hne]
  exact ⟨u ++ x, y, by rw [← hu, trimL] at *; rw [hxy]; simp⟩

theorem splitFirst_length {pat s a b : Chars} (h : splitFirst pat s = some (a, b)) :
    s.length = a.length + pat.length + b.length := by
  rw [splitFirst_sound h]; simp; omega

theorem removeThink_nil : removeThink [] = [] := rfl

theorem splitFirst_drop {pat s a b : Chars} (h : splitFirst pat s = some (a, b)) :
    s.drop (a.length + pat.length) = b := by
  rw [splitFirst_sound h, ← List.length_append, List.drop_left]

theorem removeThinkF_congr :
    ∀ (fuel₁ : Nat) {s : Chars} {fuel₂ : Nat}, s.length ≤ fuel₁ → s.length ≤ fuel₂ →
      removeThinkF fuel₁ s = removeThinkF fuel₂ s := by
  intro fuel₁
  induction fuel₁ using Nat.strong_induction_on with
  | _ fuel₁ ih =>
    intro s fuel₂ h1 h2
    match fuel₁, s, fuel₂ with
    | 0, s, fuel₂ =>
      have hs : s = [] := List.eq_nil_of_length_eq_zero (Nat.le_zero.mp h1)
      subst hs
      cases fuel₂ <;> rfl
    | a + 1, [], fuel₂ => cases fuel₂ <;> rfl
    | a + 1, c :: cs, 0 => exact absurd h2 (by simp)
    | a + 1, c :: cs, b + 1 =>
      show removeThinkF (a + 1) (c :: cs) = removeThinkF (b + 1) (c :: cs)
      simp only [removeThinkF]
      have hlen : cs.length ≤ a ∧ cs.length ≤ b := by
        simp only [List.length_cons] at h1 h2
        omega
      by_cases hp : thinkOpen.isPrefixOf (c :: cs) = true
      · simp only [if_pos hp]
        cases hsf : splitFirst thinkClose ((c :: cs).drop thinkOpen.length) with
        | some p =>
          obtain ⟨pre, x⟩ := p
          have hlsf := splitFirst_length hsf
          have h7 : thinkOpen.length = 7 := rfl
          have h8 : thinkClose.length = 8 := rfl
          have hd : (((c :: cs).drop thinkOpen.length).drop
              (pre.length + thinkClose.length)).length ≤ cs.length := by
            simp only [List.length_drop, List.length_cons, h7, h8] at *
            omega
          exact ih a (by omega) (le_trans hd hlen.1) (le_trans hd hlen.2)
        | none =>
          exact congrArg (c :: ·) (ih a (by omega) hlen.1 hlen.2)
      · simp only [if_neg hp]
        exact congrArg (c :: ·) (ih a (by omega) hlen.1 hlen.2)

theorem removeThink_step_some {c : Char} {cs inner rest : Chars}
    (h : thinkOpen.isPrefixOf (c :: cs) = true)
    (hsf : splitFirst thinkClose ((c :: cs).drop thinkOpen.length) = some (inner, rest)) :
    removeThink (c :: cs) = removeThink rest := by
  have hlsf := splitFirst_length hsf
  have h7 : thinkOpen.length = 7 := rfl
  have h8 : thinkClose.length = 8 := rfl
  show removeThinkF (cs.length + 1) (c :: cs) = removeThink rest
  simp only [removeThinkF, if_pos h, hsf]
  rw [splitFirst_drop hsf]
  apply removeThinkF_congr
  · simp only [List.length_drop, List.length_cons, h7, h8] at hlsf ⊢
    omega
  · exact le_refl _

theorem removeThink_step_neg {c : Char} {cs : Chars}
    (h : ¬ thinkOpen.isPrefixOf (c :: cs) = true) :
    removeThink (c :: cs) = c :: removeThink cs := by
  show removeThinkF (cs.length + 1) (c :: cs) = c :: removeThink cs
  simp only [removeThinkF, if_neg h]
  rfl

/-- Text with no `<think>` opener is left untouched by the `re.sub`. -/
theorem removeThink_id {s : Chars} (h : hasSub thinkOpen s = false) :
    removeThink s = s := by
  induction s with
  | nil => exact removeThink_nil
  | cons c cs ih =>
    have hp : ¬ thinkOpen.isPrefixOf (c :: cs) = true := by
      intro hpre
      obtain ⟨t, ht⟩ := List.isPrefixOf_iff_prefix.mp hpre
      have : hasSub thinkOpen (c :: cs) = true :=
        (hasSub_iff (by decide)).mpr ⟨[], t, by rw [← ht]; rfl⟩
      rw [h] at this
      exact absurd this (by simp)
    rw [removeThink_step_neg hp, ih (hasSub_cons_false (by decide) h)]

/-- A leading `<think>...</think>` span whose body has no earlier closer
is removed wholesale, and scanning resumes after it. -/
theorem removeThink_block (inner rest : Chars)
    (hin : hasSub thinkClose inner = false) :
    removeThink (thinkOpen ++ inner ++ thinkClose ++ rest) = removeThink rest := by
  have hno : ∀ k, k < thinkClose.length → 0 < k → ¬ (thinkClose.drop k) <+: thinkClose := by
    decide
  have hdrop : (thinkOpen ++ inner ++ thinkClose ++ rest).drop thinkOpen.length
      = inner ++ thinkClose ++ rest := by
    rw [List.append_assoc, List.append_assoc, List.drop_left, ← List.append_assoc]
  have hsf : splitFirst thinkClose ((thinkOpen ++ inner ++ thinkClose ++ rest).drop thinkOpen.length)
      = some (inner, rest) := by
    rw [hdrop]
    exact splitFirst_append_of_no_selfoverlap (by decide)
      (fun k hk0 hk => hno k hk hk0) hin
  rw [List.append_assoc, List.append_assoc] at hsf ⊢
  have hpre : thinkOpen.isPrefixOf
      ('<' :: (['t', 'h', 'i', 'n', 'k', '>'] ++ (inner ++ (thinkClose ++ rest)))) = true :=
    List.isPrefixOf_iff_prefix.mpr ⟨inner ++ (thinkClose ++ rest), rfl⟩
  have hsf' : splitFirst thinkClose
      (('<' :: (['t', 'h', 'i', 'n', 'k', '>'] ++ (inner ++ (thinkClose ++ rest)))).drop
        thinkOpen.length) = some (inner, rest) := hsf
  show removeThink ('<' :: (['t', 'h', 'i', 'n', 'k', '>'] ++ (inner ++ (thinkClose ++ rest))))
      = removeThink rest
  exact removeThink_step_some hpre hsf'

/-! ### The movement fallback on numeric inputs -/

theorem numView_map {vs : List Json} {qs : List ℚ} (h : numView vs = some qs) :
    vs = qs.map Json.num := by
  induction vs generalizing qs with
  | nil => simp [numView] at h; simp [← h]
  | cons v vs ih =>
    cases v with
    | num q =>
      simp only [numView] at h
      cases hv : numView vs with
      | none => rw [hv] at h; simp at h
      | some qs' =>
        rw [hv] at h
        simp only [Option.map_some'] at h
        injection h with h2
        subst h2
        simp [ih hv]
    | null => simp [numView] at h
    | bool b => simp [numView] at h
    | str s => simp [numView] at h
    | arr xs => simp [numView] at h
    | obj kvs => simp [numView] at h

theorem ok_bind {α β : Type} (x : α) (f : α → Except PyExc β) :
    (Except.ok x >>= f : Except PyExc β) = f x := rfl

theorem pyAdd_num (a q : ℚ) : pyAdd a (Json.num q) = .ok (a + q) := rfl

theorem pyGtB_num (a b : ℚ) : pyGtB (Json.num a) (Json.num b) = .ok (decide (b < a)) := rfl

theorem pyMulQ_num (x q : ℚ) : pyMulQ (Json.num x) q = .ok (Json.num (x * q)) := rfl

theorem pySum_num (qs : List ℚ) :
    pySum (qs.map Json.num) = .ok qs.sum := by
  have general : ∀ (l : List ℚ) (a : ℚ),
      List.foldlM pyAdd a (l.map Json.num) = .ok (a + l.sum) := by
    intro l
    induction l with
    | nil => intro a; simp [List.foldlM]; rfl
    | cons q l ih =>
      intro a
      simp only [List.map_cons, List.foldlM_cons, pyAdd_num, ok_bind]
      rw [ih (a + q), List.sum_cons]
      ring_nf
  have := general qs 0
  rw [pySum, this, zero_add]

theorem pyMaxList_num (x : ℚ) (xs : List ℚ) :
    pyMaxList (Json.num x) (xs.map Json.num) = .ok (Json.num (xs.foldl max x)) := by
  induction xs generalizing x with
  | nil => simp [pyMaxList, List.foldlM]; rfl
  | cons q l ih =>
    have hmax : (if decide (x < q) then Json.num q else Json.num x)
        = Json.num (max x q) := by
      by_cases h : x < q
      · simp [h, max_eq_right (le_of_lt h)]
      · simp [h, max_eq_left (le_of_not_lt h)]
    simp only [List.map_cons, pyMaxList, List.foldlM_cons] at *
    rw [show (pyGtB (Json.num q) (Json.num x) >>= fun b =>
        pure (if b then Json.num q else Json.num x) : Except PyExc Json) =
      .ok (if decide (x < q) then Json.num q else Json.num x) from rfl]
    rw [ok_bind, hmax, List.foldl_cons]
    exact ih (max x q)

theorem avgOr0_num (qs : List ℚ) :
    avgOr0 (qs.map Json.num) = .ok (Json.num (specMean qs)) := by
  cases qs with
  | nil => rfl
  | cons q l =>
    rw [avgOr0, if_neg (by simp)]
    rw [show pySum ((q :: l).map Json.num) = .ok ((q :: l).sum) from pySum_num _]
    rw [ok_bind]
    simp only [specMean, List.isEmpty_cons, List.length_map, List.sum_cons]
    norm_num
    rfl

theorem pyMaxOr0_num (qs : List ℚ) :
    pyMaxOr0 (qs.map Json.num) = .ok (Json.num (specMax qs)) := by
  cases qs with
  | nil => rfl
  | cons q l =>
    simp only [List.map_cons, pyMaxOr0]
    rw [pyMaxList_num]
    rfl

theorem movementCore_num {hist : List PyDict} {cur : PyDict} {qs : List ℚ} {qc : ℚ}
    (hq : numSpeedsOf hist = some qs)
    (hc : dget cur "speed" (Json.num 0) = Json.num qc) :
    movementCore hist cur =
      .ok (decide ((6 / 5 : ℚ) * specMax qs < qc) || decide ((3 / 2 : ℚ) * specMean qs < qc)) := by
  have hmap : speedsOf hist = qs.map Json.num := numView_map hq
  unfold movementCore
  rw [hc, hmap]
  show (do
    let avg_speed ← avgOr0 (qs.map Json.num)
    let max_speed ← pyMaxOr0 (qs.map Json.num)
    let m1 ← pyMulQ max_speed (6 / 5 : ℚ)
    let t1 ← pyGtB (Json.num qc) m1
    if t1 = true then pure true
    else do
      let m2 ← pyMulQ avg_speed (3 / 2 : ℚ)
      pyGtB (Json.num qc) m2) =
    Except.ok (decide ((6 / 5 : ℚ) * specMax qs < qc) || decide ((3 / 2 : ℚ) * specMean qs < qc))
  rw [avgOr0_num, ok_bind, pyMaxOr0_num, ok_bind, pyMulQ_num, ok_bind,
    pyGtB_num, ok_bind]
  rw [mul_comm ((6 : ℚ) / 5) (specMax qs), mul_comm ((3 : ℚ) / 2) (specMean qs)]
  by_cases h1 : specMax qs * (6 / 5) < qc
  · rw [if_pos (by simp [h1])]
    simp [h1]
    rfl
  · rw [if_neg (by simp [h1])]
    rw [pyMulQ_num, ok_bind, pyGtB_num]
    simp [h1]

theorem routeSafetyCore_eq (cd : List PyDict) (tod : String) :
    routeSafetyCore cd tod =
      (specRouteScore cd.length (specTimeConcern tod), specTimeConcern tod) := by
  unfold routeSafetyCore specRouteScore specTimeConcern
  simp [List.any_cons, List.any_nil, Bool.or_assoc, Bool.or_false]

theorem specRouteScore_bounds (n : ℤ) (hn : 0 ≤ n) (b : Bool) :
    1 ≤ specRouteScore n b ∧ specRouteScore n b ≤ 10 := by
  unfold specRouteScore
  rcases b <;> split_ifs <;>
    constructor <;>
      first
        | exact le_max_right _ _
        | exact max_le (by omega) (by omega)
        | omega
        | simp_all

/-! ### Claim theorems -/

/-- C5: the movement Fallback Analyzer computes the mean and max over
exactly the historical samples carrying a speed value (empty set of
speeds gives mean = max = 0), flags `abnormal_speed` exactly when the
current speed exceeds 1.2 × max or 1.5 × mean, sets `risk_level` to 7 if
abnormal else 2, always sets `sudden_stop = false` and
`route_deviation = false`, and sets `recommended_action` to
"Monitor speed" if abnormal else "No action needed". -/
theorem c5_movement_fallback_formula (hist : List PyDict) (cur : PyDict) (u now : String)
    (qs : List ℚ) (qc : ℚ)
    (hq : numSpeedsOf hist = some qs)
    (hc : dget cur "speed" (Json.num 0) = Json.num qc) :
    fallback_movement_analysis hist cur u now =
      [("abnormal_speed", Json.bool
          (decide (qc > (6 / 5 : ℚ) * specMax qs) || decide (qc > (3 / 2 : ℚ) * specMean qs))),
       ("sudden_stop", Json.bool false),
       ("route_deviation", Json.bool false),
       ("safety_concerns", Json.bool
          (decide (qc > (6 / 5 : ℚ) * specMax qs) || decide (qc > (3 / 2 : ℚ) * specMean qs))),
       ("risk_level", Json.num
          (if decide (qc > (6 / 5 : ℚ) * specMax qs) || decide (qc > (3 / 2 : ℚ) * specMean qs)
           then 7 else 2)),
       ("reasoning", Json.str "Fallback analysis: Speed analysis only"),
       ("recommended_action", Json.str
          (if decide (qc > (6 / 5 : ℚ) * specMax qs) || decide (qc > (3 / 2 : ℚ) * specMean qs)
           then "Monitor speed" else "No action needed")),
       ("is_fallback", Json.bool true),
       ("analysis_timestamp", Json.str now),
       ("user_id", Json.str u)] := by
  unfold fallback_movement_analysis
  rw [movementCore_num hq hc]

/-- Witness for C5 at the spec's own example: historical speeds
[5.0, 4.8, 5.2] and current speed 8.5 give `abnormal_speed = true`
(8.5 > 5.2 × 1.2 = 6.24) and `risk_level = 7`. -/
theorem c5_witness :
    numSpeedsOf [[("speed", Json.num 5)], [("speed", Json.num (24 / 5))],
        [("speed", Json.num (26 / 5))]] = some [5, 24 / 5, 26 / 5] ∧
    dget [("speed", Json.num (17 / 2))] "speed" (Json.num 0) = Json.num (17 / 2) ∧
    dlookup (fallback_movement_analysis
        [[("speed", Json.num 5)], [("speed", Json.num (24 / 5))], [("speed", Json.num (26 / 5))]]
        [("speed", Json.num (17 / 2))] "child-1" "ts") "abnormal_speed" =
      some (Json.bool true) ∧
    dlookup (fallback_movement_analysis
        [[("speed", Json.num 5)], [("speed", Json.num (24 / 5))], [("speed", Json.num (26 / 5))]]
        [("speed", Json.num (17 / 2))] "child-1" "ts") "risk_level" =
      some (Json.num 7) := by
  have h := c5_movement_fallback_formula
    [[("speed", Json.num 5)], [("speed", Json.num (24 / 5))], [("speed", Json.num (26 / 5))]]
    [("speed", Json.num (17 / 2))] "child-1" "ts" [5, 24 / 5, 26 / 5] (17 / 2) rfl rfl
  have hab : (decide ((17 / 2 : ℚ) > (6 / 5 : ℚ) * specMax [5, 24 / 5, 26 / 5]) ||
      decide ((17 / 2 : ℚ) > (3 / 2 : ℚ) * specMean [5, 24 / 5, 26 / 5])) = true := by
    have hmx : specMax [5, 24 / 5, 26 / 5] = 26 / 5 := by
      norm_num [specMax, List.foldl]
    rw [hmx]
    norm_num
  rw [hab] at h
  simp only [if_pos, if_true] at h
  refine ⟨rfl, rfl, ?_, ?_⟩ <;> rw [h] <;> rfl

/-- C10: when no historical sample carries a speed value and the current
speed is strictly positive, the movement fallback flags
`abnormal_speed = true` with `risk_level = 7`, because both thresholds
1.2 × max and 1.5 × mean evaluate to 0. -/
theorem c10_empty_history_abnormal (hist : List PyDict) (cur : PyDict) (u now : String)
    (qc : ℚ)
    (hempty : speedsOf hist = [])
    (hc : dget cur "speed" (Json.num 0) = Json.num qc)
    (hpos : 0 < qc) :
    dlookup (fallback_movement_analysis hist cur u now) "abnormal_speed" =
      some (Json.bool true) ∧
    dlookup (fallback_movement_analysis hist cur u now) "risk_level" = some (Json.num 7) := by
  have hq : numSpeedsOf hist = some [] := by rw [numSpeedsOf, hempty]; rfl
  have h := movementCore_num hq hc
  have habn : (decide ((6 / 5 : ℚ) * specMax [] < qc) ||
      decide ((3 / 2 : ℚ) * specMean [] < qc)) = true := by
    simp [specMax, specMean, hpos]
  rw [habn] at h
  unfold fallback_movement_analysis
  rw [h]
  exact ⟨rfl, rfl⟩

/-- Witness for C10: empty history and current speed 1. -/
theorem c10_witness :
    speedsOf ([] : List PyDict) = [] ∧
    dlookup (fallback_movement_analysis [] [("speed", Json.num 1)] "child-1" "ts")
      "abnormal_speed" = some (Json.bool true) ∧
    dlookup (fallback_movement_analysis [] [("speed", Json.num 1)] "child-1" "ts")
      "risk_level" = some (Json.num 7) := by
  have h := c10_empty_history_abnormal [] [("speed", Json.num 1)] "child-1" "ts" 1
    rfl rfl (by norm_num)
  exact ⟨rfl, h.1, h.2⟩

/-- C6: the route-safety Fallback Analyzer scores
`max(10 − count(crime_data), 1)` when the count is below 10 and 1
otherwise, subtracts 2 more (floored at 1) exactly when `time_of_day`
case-insensitively contains "evening", "night" or "late" (which also
sets `time_of_day_concerns`); `risky_segments` is always empty,
`safe_alternative_available` always false, and the recommendation is
"Consider daytime travel" under a time-of-day concern, else
"Route appears acceptable"; the score always lies in 1..10 (2 incidents
with "late evening" give 6; ≥10 incidents floor at 1). -/
theorem c6_route_fallback_formula (rp cd : List PyDict) (tod u now : String) :
    fallback_route_safety rp cd tod u now =
      [("safety_score", Json.num ((specRouteScore cd.length (specTimeConcern tod) : ℤ) : ℚ)),
       ("risky_segments", Json.arr []),
       ("time_of_day_concerns", Json.bool (specTimeConcern tod)),
       ("recommendation", Json.str
          (if specTimeConcern tod then "Consider daytime travel" else "Route appears acceptable")),
       ("safe_alternative_available", Json.bool false),
       ("is_fallback", Json.bool true),
       ("analysis_timestamp", Json.str now),
       ("user_id", Json.str u)] ∧
    1 ≤ specRouteScore cd.length (specTimeConcern tod) ∧
    specRouteScore cd.length (specTimeConcern tod) ≤ 10 ∧
    specRouteScore 2 true = 6 ∧
    specTimeConcern "late evening" = true ∧
    specTimeConcern "afternoon" = false ∧
    (∀ n : ℤ, 10 ≤ n → specRouteScore n true = 1 ∧ specRouteScore n false = 1) := by
  refine ⟨?_, (specRouteScore_bounds _ (by positivity) _).1,
    (specRouteScore_bounds _ (by positivity) _).2,
    by norm_num [specRouteScore], by decide, by decide, ?_⟩
  · unfold fallback_route_safety
    rw [routeSafetyCore_eq]
  · intro n hn
    have h10 : ¬ (n < 10) := by omega
    unfold specRouteScore
    rw [if_neg h10]
    constructor <;> norm_num

/-- C8: the fallback analyzers never raise: an internal error while
computing the movement fallback yields the fixed minimal-risk
(`risk_level = 1`) response carrying the error message, the route-safety
error branch builds the neutral `safety_score = 5` response plus error
text, and both fallback outputs always carry `is_fallback = true`. -/
theorem c8_fallback_never_raises :
    (∀ (hist : List PyDict) (cur : PyDict) (u now : String) (e : PyExc),
      movementCore hist cur = .error e →
      fallback_movement_analysis hist cur u now =
        [("abnormal_speed", Json.bool false),
         ("sudden_stop", Json.bool false),
         ("route_deviation", Json.bool false),
         ("safety_concerns", Json.bool false),
         ("risk_level", Json.num 1),
         ("reasoning", Json.str "Error in analysis system"),
         ("recommended_action", Json.str "Check system logs"),
         ("is_fallback", Json.bool true),
         ("error", Json.str e.msg),
         ("analysis_timestamp", Json.str now),
         ("user_id", Json.str u)]) ∧
    (∀ errMsg u now : String,
      dlookup (routeSafetyDegraded errMsg u now) "safety_score" = some (Json.num 5) ∧
      dlookup (routeSafetyDegraded errMsg u now) "error" = some (Json.str errMsg) ∧
      dlookup (routeSafetyDegraded errMsg u now) "is_fallback" = some (Json.bool true)) ∧
    (∀ (hist : List PyDict) (cur : PyDict) (u now : String),
      dlookup (fallback_movement_analysis hist cur u now) "is_fallback" =
        some (Json.bool true)) ∧
    (∀ (rp cd : List PyDict) (tod u now : String),
      dlookup (fallback_route_safety rp cd tod u now) "is_fallback" =
        some (Json.bool true)) := by
  refine ⟨?_, fun errMsg u now => ⟨rfl, rfl, rfl⟩, ?_, fun rp cd tod u now => rfl⟩
  · intro hist cur u now e he
    unfold fallback_movement_analysis
    rw [he]
  · intro hist cur u now
    unfold fallback_movement_analysis
    cases movementCore hist cur <;> rfl

/-- Witness for C8: a string-typed current speed makes the movement core
raise `TypeError` internally, and the fallback returns the minimal
response instead of raising. -/
theorem c8_witness :
    fallback_movement_analysis [] [("speed", Json.str "fast")] "child-1" "ts" =
      [("abnormal_speed", Json.bool false),
       ("sudden_stop", Json.bool false),
       ("route_deviation", Json.bool false),
       ("safety_concerns", Json.bool false),
       ("risk_level", Json.num 1),
       ("reasoning", Json.str "Error in analysis system"),
       ("recommended_action", Json.str "Check system logs"),
       ("is_fallback", Json.bool true),
       ("error", Json.str (PyExc.typeError "'>' not supported between operand types").msg),
       ("analysis_timestamp", Json.str "ts"),
       ("user_id", Json.str "child-1")] :=
  c8_fallback_never_raises.1 [] [("speed", Json.str "fast")] "child-1" "ts"
    (.typeError "'>' not supported between operand types") rfl

/-! ### Lemmas about metadata stamping and the model-client layer -/

theorem mem_dkeys_dset (d : PyDict) (k k' : String) (v : Json) :
    k' ∈ dkeys (dset d k v) ↔ k' ∈ dkeys d ∨ k' = k := by
  rw [dkeys_dset]
  split_ifs with h
  · constructor
    · exact fun hm => Or.inl hm
    · rintro (hm | rfl)
      · exact hm
      · exact h
  · simp [List.mem_append]

theorem loadsE_error {s : String} {e : PyExc} (h : loadsE s = .error e) :
    e = .jsonDecodeError := by
  unfold loadsE at h
  cases hl : loads s with
  | some j => rw [hl] at h; exact absurd h (by simp)
  | none =>
    rw [hl] at h
    injection h with h'
    exact h'.symm

theorem analyze_movement_ok_obj {outcome : ChatOutcome} {d : PyDict}
    (h : get_analysis outcome = .ok (.obj d))
    (hist : List PyDict) (cur : PyDict) (u now : String) :
    analyze_movement outcome hist cur u now =
      dset (dset d "analysis_timestamp" (Json.str now)) "user_id" (Json.str u) := by
  unfold analyze_movement
  rw [h]

theorem analyze_movement_error {outcome : ChatOutcome} {e : PyExc}
    (h : get_analysis outcome = .error e)
    (hist : List PyDict) (cur : PyDict) (u now : String) :
    analyze_movement outcome hist cur u now =
      fallback_movement_analysis hist cur u now := by
  unfold analyze_movement
  rw [h]

theorem analyze_movement_ok_nonobj {outcome : ChatOutcome} {j : Json}
    (h : get_analysis outcome = .ok j) (hno : ∀ d, j ≠ Json.obj d)
    (hist : List PyDict) (cur : PyDict) (u now : String) :
    analyze_movement outcome hist cur u now =
      fallback_movement_analysis hist cur u now := by
  unfold analyze_movement
  rw [h]
  cases j with
  | obj d => exact absurd rfl (hno d)
  | null => rfl
  | bool b => rfl
  | num q => rfl
  | str s => rfl
  | arr xs => rfl

theorem analyze_route_ok_obj {outcome : ChatOutcome} {d : PyDict}
    (h : get_analysis outcome = .ok (.obj d))
    (rp cd : List PyDict) (tod u now : String) :
    analyze_route_safety outcome rp cd tod u now =
      dset (dset d "analysis_timestamp" (Json.str now)) "user_id" (Json.str u) := by
  unfold analyze_route_safety
  rw [h]

theorem analyze_route_error {outcome : ChatOutcome} {e : PyExc}
    (h : get_analysis outcome = .error e)
    (rp cd : List PyDict) (tod u now : String) :
    analyze_route_safety outcome rp cd tod u now =
      fallback_route_safety rp cd tod u now := by
  unfold analyze_route_safety
  rw [h]

theorem analyze_route_ok_nonobj {outcome : ChatOutcome} {j : Json}
    (h : get_analysis outcome = .ok j) (hno : ∀ d, j ≠ Json.obj d)
    (rp cd : List PyDict) (tod u now : String) :
    analyze_route_safety outcome rp cd tod u now =
      fallback_route_safety rp cd tod u now := by
  unfold analyze_route_safety
  rw [h]
  cases j with
  | obj d => exact absurd rfl (hno d)
  | null => rfl
  | bool b => rfl
  | num q => rfl
  | str s => rfl
  | arr xs => rfl

theorem stamp_lookup_ts (d : PyDict) (u now : String) :
    dlookup (dset (dset d "analysis_timestamp" (Json.str now)) "user_id" (Json.str u))
      "analysis_timestamp" = some (Json.str now) := by
  rw [dlookup_dset_other _ _ _ _ (by decide), dlookup_dset_self]

theorem stamp_lookup_uid (d : PyDict) (u now : String) :
    dlookup (dset (dset d "analysis_timestamp" (Json.str now)) "user_id" (Json.str u))
      "user_id" = some (Json.str u) :=
  dlookup_dset_self _ _ _

theorem stamp_lookup_frame (d : PyDict) (u now : String) (k : String)
    (h1 : k ≠ "analysis_timestamp") (h2 : k ≠ "user_id") :
    dlookup (dset (dset d "analysis_timestamp" (Json.str now)) "user_id" (Json.str u)) k =
      dlookup d k := by
  rw [dlookup_dset_other _ _ _ _ h2, dlookup_dset_other _ _ _ _ h1]

theorem stamp_keys (d : PyDict) (u now : String) (k : String) :
    k ∈ dkeys (dset (dset d "analysis_timestamp" (Json.str now)) "user_id" (Json.str u)) ↔
      k ∈ dkeys d ∨ k = "analysis_timestamp" ∨ k = "user_id" := by
  rw [mem_dkeys_dset, mem_dkeys_dset, or_assoc]

/-- C1 (counterexample): for the malformed model content `"{,}"` the
extractor raises a decode error, yet the service returns the stamped
error mapping from `get_analysis` — not the Fallback Analyzer's output —
and that mapping carries no `is_fallback` key. -/
theorem c1_counterexample :
    extract_json_from_model_response "\x7b,\x7d" = .error .jsonDecodeError ∧
    analyze_movement (.success "\x7b,\x7d") [] [] "child-1" "ts" =
      [("error", Json.str "Failed to parse model response as JSON"),
       ("raw_response", Json.str "\x7b,\x7d"),
       ("analysis_timestamp", Json.str "ts"),
       ("user_id", Json.str "child-1")] ∧
    dlookup (analyze_movement (.success "\x7b,\x7d") [] [] "child-1" "ts") "is_fallback" =
      none ∧
    dlookup (fallback_movement_analysis [] [] "child-1" "ts") "is_fallback" =
      some (Json.bool true) := by
  refine ⟨rfl, rfl, rfl, ?_⟩
  unfold fallback_movement_analysis
  cases movementCore [] [] <;> rfl

/-- C1 (amended): the services always return a mapping and never raise;
whenever `get_analysis` raises — any transport error, or an extraction
error other than a `JSONDecodeError` absorbed inside `get_analysis` — or
returns a non-dict value, the Fallback Analyzer's output (which always
carries `is_fallback = true`) is returned; when `get_analysis` returns a
dict, the stamped dict is returned, so every call yields either a
stamped model dict or the fallback output.  Decode errors with a
brace-span candidate in the raw content are absorbed inside
`get_analysis` and reach the caller as a stamped error mapping without
`is_fallback` (see `c1_counterexample`). -/
theorem c1_services_absorb_failures :
    (∀ (outcome : ChatOutcome) (hist : List PyDict) (cur : PyDict) (u now : String)
        (e : PyExc), get_analysis outcome = .error e →
      analyze_movement outcome hist cur u now = fallback_movement_analysis hist cur u now ∧
      dlookup (analyze_movement outcome hist cur u now) "is_fallback" =
        some (Json.bool true)) ∧
    (∀ (outcome : ChatOutcome) (rp cd : List PyDict) (tod u now : String) (e : PyExc),
      get_analysis outcome = .error e →
      analyze_route_safety outcome rp cd tod u now = fallback_route_safety rp cd tod u now ∧
      dlookup (analyze_route_safety outcome rp cd tod u now) "is_fallback" =
        some (Json.bool true)) ∧
    (∀ (outcome : ChatOutcome) (hist : List PyDict) (cur : PyDict) (u now : String)
        (j : Json), get_analysis outcome = .ok j → (∀ d, j ≠ Json.obj d) →
      analyze_movement outcome hist cur u now = fallback_movement_analysis hist cur u now) ∧
    (∀ (outcome : ChatOutcome) (hist : List PyDict) (cur : PyDict) (u now : String),
      (∃ d, get_analysis outcome = .ok (Json.obj d) ∧
        analyze_movement outcome hist cur u now =
          dset (dset d "analysis_timestamp" (Json.str now)) "user_id" (Json.str u)) ∨
      analyze_movement outcome hist cur u now = fallback_movement_analysis hist cur u now) ∧
    (∀ (outcome : ChatOutcome) (rp cd : List PyDict) (tod u now : String),
      (∃ d, get_analysis outcome = .ok (Json.obj d) ∧
        analyze_route_safety outcome rp cd tod u now =
          dset (dset d "analysis_timestamp" (Json.str now)) "user_id" (Json.str u)) ∨
      analyze_route_safety outcome rp cd tod u now =
        fallback_route_safety rp cd tod u now) := by
  have hfb_m : ∀ (hist : List PyDict) (cur : PyDict) (u now : String),
      dlookup (fallback_movement_analysis hist cur u now) "is_fallback" =
        some (Json.bool true) := by
    intro hist cur u now
    unfold fallback_movement_analysis
    cases movementCore hist cur <;> rfl
  refine ⟨?_, ?_, ?_, ?_, ?_⟩
  · intro outcome hist cur u now e h
    rw [analyze_movement_error h]
    exact ⟨rfl, hfb_m hist cur u now⟩
  · intro outcome rp cd tod u now e h
    rw [analyze_route_error h]
    exact ⟨rfl, rfl⟩
  · intro outcome hist cur u now j h hno
    exact analyze_movement_ok_nonobj h hno hist cur u now
  · intro outcome hist cur u now
    cases hga : get_analysis outcome with
    | error e => exact Or.inr (analyze_movement_error hga hist cur u now)
    | ok j =>
      cases j with
      | obj d => exact Or.inl ⟨d, rfl, analyze_movement_ok_obj hga hist cur u now⟩
      | null => exact Or.inr (analyze_movement_ok_nonobj hga (by simp) hist cur u now)
      | bool b => exact Or.inr (analyze_movement_ok_nonobj hga (by simp) hist cur u now)
      | num q => exact Or.inr (analyze_movement_ok_nonobj hga (by simp) hist cur u now)
      | str s => exact Or.inr (analyze_movement_ok_nonobj hga (by simp) hist cur u now)
      | arr xs => exact Or.inr (analyze_movement_ok_nonobj hga (by simp) hist cur u now)
  · intro outcome rp cd tod u now
    cases hga : get_analysis outcome with
    | error e => exact Or.inr (analyze_route_error hga rp cd tod u now)
    | ok j =>
      cases j with
      | obj d => exact Or.inl ⟨d, rfl, analyze_route_ok_obj hga rp cd tod u now⟩
      | null => exact Or.inr (analyze_route_ok_nonobj hga (by simp) rp cd tod u now)
      | bool b => exact Or.inr (analyze_route_ok_nonobj hga (by simp) rp cd tod u now)
      | num q => exact Or.inr (analyze_route_ok_nonobj hga (by simp) rp cd tod u now)
      | str s => exact Or.inr (analyze_route_ok_nonobj hga (by simp) rp cd tod u now)
      | arr xs => exact Or.inr (analyze_route_ok_nonobj hga (by simp) rp cd tod u now)

/-- Witness for C1 (amended): a transport failure triggers the movement
fallback with `is_fallback = true`, and a non-dict model answer
(`[1, 2]` in a fenced block) triggers it as well. -/
theorem c1_witness :
    get_analysis (.failure "connection refused") =
      .error (.transportError "connection refused") ∧
    analyze_movement (.failure "connection refused") [] [] "child-1" "ts" =
      fallback_movement_analysis [] [] "child-1" "ts" ∧
    dlookup (analyze_movement (.failure "connection refused") [] [] "child-1" "ts")
      "is_fallback" = some (Json.bool true) ∧
    analyze_movement (.success "```json [1, 2] ```") [] [] "child-1" "ts" =
      fallback_movement_analysis [] [] "child-1" "ts" := by
  have h1 := c1_services_absorb_failures.1 (.failure "connection refused") [] [] "child-1"
    "ts" (.transportError "connection refused") rfl
  have h2 := c1_services_absorb_failures.2.2.1 (.success "```json [1, 2] ```") [] []
    "child-1" "ts" (Json.arr [Json.num (mkRat 1 1), Json.num (mkRat 2 1)]) rfl (by simp)
  exact ⟨rfl, h1.1, h1.2, h2⟩

/-- C2 (counterexample): when the extractor fails with a decode error on
content `"{,}"`, `get_analysis` does not propagate it — it returns an
error-shaped mapping of its own instead. -/
theorem c2_counterexample :
    extract_json_from_model_response "\x7b,\x7d" = .error .jsonDecodeError ∧
    get_analysis (.success "\x7b,\x7d") =
      .ok (.obj [("error", Json.str "Failed to parse model response as JSON"),
                 ("raw_response", Json.str "\x7b,\x7d")]) :=
  ⟨rfl, rfl⟩

/-- C2 (amended): `get_analysis` propagates transport errors and every
extractor error other than `json.JSONDecodeError` unmodified; a decode
error, however, is caught: `get_analysis` retries a brace-span extraction
on the raw content and, failing that, substitutes the
`{"error", "raw_response"}` mapping instead of raising. -/
theorem c2_get_analysis_propagation :
    (∀ msg : String, get_analysis (.failure msg) = .error (.transportError msg)) ∧
    (∀ (content : String) (e : PyExc),
      extract_json_from_model_response content = .error e → e ≠ .jsonDecodeError →
      get_analysis (.success content) = .error e) ∧
    (∀ content : String,
      extract_json_from_model_response content = .error .jsonDecodeError →
      braceSpan content.data = none →
      get_analysis (.success content) = .ok (.obj (errDict content))) ∧
    (∀ (content : String) (cand : Chars),
      extract_json_from_model_response content = .error .jsonDecodeError →
      braceSpan content.data = some cand → loadsC cand = none →
      get_analysis (.success content) = .ok (.obj (errDict content))) ∧
    (∀ (content : String) (cand : Chars) (j : Json),
      extract_json_from_model_response content = .error .jsonDecodeError →
      braceSpan content.data = some cand → loadsC cand = some j →
      get_analysis (.success content) = .ok j) := by
  refine ⟨fun msg => rfl, ?_, ?_, ?_, ?_⟩
  · intro content e h hne
    unfold get_analysis
    simp only [h]
  · intro content h hb
    unfold get_analysis
    simp only [h, hb]
  · intro content cand h hb hl
    have hle : loadsE (String.mk cand) = .error .jsonDecodeError := by
      unfold loadsE loads
      rw [show (String.mk cand).data = cand from rfl, hl]
    unfold get_analysis
    simp only [h, hb, hle]
  · intro content cand j h hb hl
    have hle : loadsE (String.mk cand) = .ok j := by
      unfold loadsE loads
      rw [show (String.mk cand).data = cand from rfl, hl]
    unfold get_analysis
    simp only [h, hb, hle]

/-- Witness for C2 (amended): the no-JSON `ValueError` on content
`"hello"` propagates unmodified, and a transport error propagates. -/
theorem c2_witness :
    extract_json_from_model_response "hello" =
      .error (.valueError "No JSON object found in response") ∧
    get_analysis (.success "hello") =
      .error (.valueError "No JSON object found in response") ∧
    get_analysis (.failure "timeout") = .error (.transportError "timeout") := by
  refine ⟨rfl, ?_, c2_get_analysis_propagation.1 "timeout"⟩
  exact c2_get_analysis_propagation.2.1 "hello"
    (.valueError "No JSON object found in response") rfl (by decide)

/-- C4 (counterexample): on text with no JSON candidate the extractor
raises `ValueError` with the fixed message
"No JSON object found in response", which does not carry the input's
first ~500 characters. -/
theorem c4_counterexample :
    extract_json_from_model_response "hello" =
      .error (.valueError "No JSON object found in response") ∧
    ¬ specCarriesInputPrefix "hello" "No JSON object found in response" :=
  ⟨rfl, by unfold specCarriesInputPrefix; decide⟩

/-- C4 (amended): every error raised by the extractor is of `ValueError`
class (a plain `ValueError` or a `json.JSONDecodeError`), never an
unrelated type; when no candidate exists at all — no closed fenced block
and no brace span — the error is the fixed-message `ValueError`, whose
message does not include the input text. -/
theorem c4_extract_error_class :
    (∀ (t : String) (e : PyExc), extract_json_from_model_response t = .error e →
      e.isValueErrorClass = true) ∧
    (∀ t : String,
      splitFirst fenceOpen (withoutThinking t) = none →
      braceSpan (withoutThinking t) = none →
      extract_json_from_model_response t =
        .error (.valueError "No JSON object found in response")) ∧
    (∀ (t : String) (pre afterOpen : Chars),
      splitFirst fenceOpen (withoutThinking t) = some (pre, afterOpen) →
      splitFirst fenceMark afterOpen = none →
      braceSpan (withoutThinking t) = none →
      extract_json_from_model_response t =
        .error (.valueError "No JSON object found in response")) := by
  refine ⟨?_, ?_, ?_⟩
  · intro t e h
    unfold extract_json_from_model_response at h
    split at h
    · split at h
      · rw [loadsE_error h]; rfl
      · split at h
        · rw [loadsE_error h]; rfl
        · injection h with h'
          rw [← h']; rfl
    · split at h
      · rw [loadsE_error h]; rfl
      · injection h with h'
        rw [← h']; rfl
  · intro t h1 h2
    unfold extract_json_from_model_response
    simp only [h1, h2]
  · intro t pre afterOpen h1 h2 h3
    unfold extract_json_from_model_response
    simp only [h1, h2, h3]

/-- Witness for C4 (amended): at `"hello"` the error is the fixed-message
`ValueError`, a `ValueError`-class exception. -/
theorem c4_witness :
    splitFirst fenceOpen (withoutThinking "hello") = none ∧
    braceSpan (withoutThinking "hello") = none ∧
    extract_json_from_model_response "hello" =
      .error (.valueError "No JSON object found in response") ∧
    (PyExc.valueError "No JSON object found in response").isValueErrorClass = true := by
  refine ⟨rfl, rfl, c4_extract_error_class.2.1 "hello" rfl rfl, ?_⟩
  exact c4_extract_error_class.1 "hello" _ (c4_extract_error_class.2.1 "hello" rfl rfl)

/-- C9: on a successful model-client call returning a mapping, each
service returns that mapping with `analysis_timestamp` set to the
current UTC instant and `user_id` set to the `user_id` argument; every
other key keeps its value and the key set grows by at most those two
keys. -/
theorem c9_metadata_stamping :
    (∀ (outcome : ChatOutcome) (hist : List PyDict) (cur : PyDict) (u now : String)
        (d : PyDict), get_analysis outcome = .ok (Json.obj d) →
      analyze_movement outcome hist cur u now =
        dset (dset d "analysis_timestamp" (Json.str now)) "user_id" (Json.str u) ∧
      dlookup (analyze_movement outcome hist cur u now) "analysis_timestamp" =
        some (Json.str now) ∧
      dlookup (analyze_movement outcome hist cur u now) "user_id" = some (Json.str u) ∧
      (∀ k, k ≠ "analysis_timestamp" → k ≠ "user_id" →
        dlookup (analyze_movement outcome hist cur u now) k = dlookup d k) ∧
      (∀ k, k ∈ dkeys (analyze_movement outcome hist cur u now) ↔
        k ∈ dkeys d ∨ k = "analysis_timestamp" ∨ k = "user_id")) ∧
    (∀ (outcome : ChatOutcome) (rp cd : List PyDict) (tod u now : String)
        (d : PyDict), get_analysis outcome = .ok (Json.obj d) →
      analyze_route_safety outcome rp cd tod u now =
        dset (dset d "analysis_timestamp" (Json.str now)) "user_id" (Json.str u) ∧
      dlookup (analyze_route_safety outcome rp cd tod u now) "analysis_timestamp" =
        some (Json.str now) ∧
      dlookup (analyze_route_safety outcome rp cd tod u now) "user_id" =
        some (Json.str u) ∧
      (∀ k, k ≠ "analysis_timestamp" → k ≠ "user_id" →
        dlookup (analyze_route_safety outcome rp cd tod u now) k = dlookup d k) ∧
      (∀ k, k ∈ dkeys (analyze_route_safety outcome rp cd tod u now) ↔
        k ∈ dkeys d ∨ k = "analysis_timestamp" ∨ k = "user_id")) := by
  constructor
  · intro outcome hist cur u now d h
    have hs := analyze_movement_ok_obj h hist cur u now
    rw [hs]
    exact ⟨rfl, stamp_lookup_ts d u now, stamp_lookup_uid d u now,
      fun k h1 h2 => stamp_lookup_frame d u now k h1 h2,
      fun k => stamp_keys d u now k⟩
  · intro outcome rp cd tod u now d h
    have hs := analyze_route_ok_obj h rp cd tod u now
    rw [hs]
    exact ⟨rfl, stamp_lookup_ts d u now, stamp_lookup_uid d u now,
      fun k h1 h2 => stamp_lookup_frame d u now k h1 h2,
      fun k => stamp_keys d u now k⟩

/-- Witness for C9: a fenced model answer `{"risk_level": 3}` comes back
stamped with the timestamp and user id, with `risk_level` preserved. -/
theorem c9_witness :
    get_analysis (.success "```json \x7b\"risk_level\": 3\x7d ```") =
      .ok (Json.obj [("risk_level", Json.num (mkRat 3 1))]) ∧
    analyze_movement (.success "```json \x7b\"risk_level\": 3\x7d ```") [] [] "child-1" "ts" =
      [("risk_level", Json.num (mkRat 3 1)),
       ("analysis_timestamp", Json.str "ts"),
       ("user_id", Json.str "child-1")] ∧
    dlookup (analyze_movement (.success "```json \x7b\"risk_level\": 3\x7d ```") [] []
      "child-1" "ts") "risk_level" = some (Json.num (mkRat 3 1)) := by
  have h := (c9_metadata_stamping.1 (.success "```json \x7b\"risk_level\": 3\x7d ```")
    [] [] "child-1" "ts" [("risk_level", Json.num (mkRat 3 1))] rfl)
  refine ⟨rfl, ?_, ?_⟩
  · rw [h.1]; rfl
  · rw [h.2.2.2.1 "risk_level" (by decide) (by decide)]; rfl

/-! ### The extractor on texts holding a fenced block -/

theorem fence_block_getLast (mid : Chars) :
    (fenceOpen ++ (mid ++ fenceMark)).getLast? = some '`' := by
  rw [List.getLast?_append_of_ne_nil _
    (fun h => absurd (List.append_eq_nil.mp h).2 (by decide))]
  rw [List.getLast?_append_of_ne_nil _ (by decide : fenceMark ≠ [])]
  rfl

theorem stripped_parts (pre mid post : Chars) :
    trimC (pre ++ (fenceOpen ++ (mid ++ (fenceMark ++ post)))) =
      trimL pre ++ (fenceOpen ++ (mid ++ (fenceMark ++ trimR post))) := by
  have hm : trimC (pre ++ (fenceOpen ++ (mid ++ fenceMark)) ++ post)
      = trimL pre ++ (fenceOpen ++ (mid ++ fenceMark)) ++ trimR post :=
    trimC_append (show (fenceOpen ++ (mid ++ fenceMark)).head? = some '`' from rfl) rfl
      (fence_block_getLast mid) rfl
  calc trimC (pre ++ (fenceOpen ++ (mid ++ (fenceMark ++ post))))
      = trimC (pre ++ (fenceOpen ++ (mid ++ fenceMark)) ++ post) := by
        simp [List.append_assoc]
    _ = trimL pre ++ (fenceOpen ++ (mid ++ fenceMark)) ++ trimR post := hm
    _ = trimL pre ++ (fenceOpen ++ (mid ++ (fenceMark ++ trimR post))) := by
        simp [List.append_assoc]

theorem extract_fenced_body {t : String} {pre mid post : Chars} {m : Json}
    (hrt : removeThink t.data = pre ++ (fenceOpen ++ (mid ++ (fenceMark ++ post))))
    (hpre : '`' ∉ pre) (hmid : '`' ∉ mid)
    (hm : loadsC (trimC mid) = some m) :
    extract_json_from_model_response t = .ok m := by
  have hw : withoutThinking t
      = trimL pre ++ (fenceOpen ++ (mid ++ (fenceMark ++ trimR post))) := by
    unfold withoutThinking
    rw [hrt]
    exact stripped_parts pre mid post
  have h1 : splitFirst fenceOpen (withoutThinking t)
      = some (trimL pre, mid ++ (fenceMark ++ trimR post)) := by
    rw [hw, show trimL pre ++ (fenceOpen ++ (mid ++ (fenceMark ++ trimR post)))
        = trimL pre ++ fenceOpen ++ (mid ++ (fenceMark ++ trimR post)) from
      (List.append_assoc _ _ _).symm]
    exact splitFirst_append_of_head_notin
      (show fenceOpen = '`' :: ['`', '`', 'j', 's', 'o', 'n'] from rfl)
      (fun hmem => hpre (mem_trimL hmem))
  have h2 : splitFirst fenceMark (mid ++ (fenceMark ++ trimR post)) =
      some (mid, trimR post) := by
    rw [show mid ++ (fenceMark ++ trimR post) = mid ++ fenceMark ++ trimR post from
      (List.append_assoc _ _ _).symm]
    exact splitFirst_append_of_head_notin
      (show fenceMark = '`' :: ['`', '`'] from rfl) hmid
  unfold extract_json_from_model_response
  simp only [h1, h2]
  unfold loadsE loads
  rw [show (String.mk (trimC mid)).data = trimC mid from rfl, hm]

/-- C3 (counterexample): the text
` ```json notjson``` ```json {"a": 1}``` ` contains a fenced ```json
block with valid JSON, yet extraction fails with a decode error, because
the regex takes the first fenced block and `json.loads` raises on it. -/
theorem c3_counterexample :
    specContainsFencedJson "```json notjson``` ```json \x7b\"a\": 1\x7d```" ∧
    extract_json_from_model_response "```json notjson``` ```json \x7b\"a\": 1\x7d```" =
      .error .jsonDecodeError := by
  constructor
  · refine ⟨"```json notjson``` ".data, " \x7b\"a\": 1\x7d".data, [], ?_, ?_⟩
    · decide
    · rfl
  · rfl

/-- C3 (amended): for every text whose first fenced ```json block — after
the non-greedy stripping of a preceding `<think>...</think>` span — has a
valid-JSON interior, extraction returns exactly that parsed mapping,
regardless of surrounding prose (which may contain brace candidates but
no backticks before or inside the block, and no stray think-tags); the
fenced block takes precedence over any bare-brace candidate.  The first
conjunct covers plain surrounding prose, the second a preceding
think-span. -/
theorem c3_first_fenced_block :
    (∀ (t : String) (pre mid post : Chars) (m : Json),
      t.data = pre ++ (fenceOpen ++ (mid ++ (fenceMark ++ post))) →
      hasSub thinkOpen t.data = false →
      '`' ∉ pre → '`' ∉ mid →
      loadsC (trimC mid) = some m →
      extract_json_from_model_response t = .ok m) ∧
    (∀ (t : String) (inner pre mid post : Chars) (m : Json),
      t.data = thinkOpen ++ (inner ++ (thinkClose ++
        (pre ++ (fenceOpen ++ (mid ++ (fenceMark ++ post)))))) →
      hasSub thinkClose inner = false →
      hasSub thinkOpen (pre ++ (fenceOpen ++ (mid ++ (fenceMark ++ post)))) = false →
      '`' ∉ pre → '`' ∉ mid →
      loadsC (trimC mid) = some m →
      extract_json_from_model_response t = .ok m) := by
  constructor
  · intro t pre mid post m ht hnothink hpre hmid hm
    have hrt : removeThink t.data = pre ++ (fenceOpen ++ (mid ++ (fenceMark ++ post))) := by
      rw [ht] at hnothink ⊢
      exact removeThink_id hnothink
    exact extract_fenced_body hrt hpre hmid hm
  · intro t inner pre mid post m ht hinner hnothink hpre hmid hm
    have hrt : removeThink t.data = pre ++ (fenceOpen ++ (mid ++ (fenceMark ++ post))) := by
      rw [ht]
      have hblock := removeThink_block inner
        (pre ++ (fenceOpen ++ (mid ++ (fenceMark ++ post)))) hinner
      rw [show thinkOpen ++ (inner ++ (thinkClose ++
          (pre ++ (fenceOpen ++ (mid ++ (fenceMark ++ post))))))
        = thinkOpen ++ inner ++ thinkClose ++
          (pre ++ (fenceOpen ++ (mid ++ (fenceMark ++ post)))) from by
        simp [List.append_assoc]]
      rw [hblock]
      exact removeThink_id hnothink
    exact extract_fenced_body hrt hpre hmid hm

/-- Witness for C3 (amended): prose (containing a brace candidate) around
a fenced block, with a preceding think-span, still yields the fenced
block's JSON. -/
theorem c3_witness :
    "<think>I reason \x7b here \x7d</think>Answer: ```json \x7b\"a\": true\x7d ``` done \x7b!".data
      = thinkOpen ++ ("I reason \x7b here \x7d".data ++ (thinkClose ++
        ("Answer: ".data ++ (fenceOpen ++ (" \x7b\"a\": true\x7d ".data ++
          (fenceMark ++ " done \x7b!".data)))))) ∧
    extract_json_from_model_response
        "<think>I reason \x7b here \x7d</think>Answer: ```json \x7b\"a\": true\x7d ``` done \x7b!" =
      .ok (.obj [("a", Json.bool true)]) := by
  refine ⟨rfl, ?_⟩
  exact c3_first_fenced_block.2
    "<think>I reason \x7b here \x7d</think>Answer: ```json \x7b\"a\": true\x7d ``` done \x7b!"
    "I reason \x7b here \x7d".data "Answer: ".data " \x7b\"a\": true\x7d ".data
    " done \x7b!".data (.obj [("a", Json.bool true)])
    rfl (by decide) (by decide) (by decide) (by decide) rfl


/-! ### The serializer re-parses: round trip on the safe fragment -/

theorem delimOk_cases {rest : Chars} (h : delimOk rest = true) :
    rest = [] ∨ ∃ c cs, rest = c :: cs ∧ (c = ',' ∨ c = '}' ∨ c = ']') := by
  cases rest with
  | nil => exact Or.inl rfl
  | cons c cs =>
    refine Or.inr ⟨c, cs, rfl, ?_⟩
    simpa [delimOk, or_assoc] using h

theorem parseFrac_delim {rest : Chars} (h : delimOk rest = true) :
    parseFrac rest = some ([], rest) := by
  rcases delimOk_cases h with rfl | ⟨c, cs, rfl, hc⟩
  · rfl
  · rcases hc with rfl | rfl | rfl <;> rfl

theorem parseExp_delim {rest : Chars} (h : delimOk rest = true) :
    parseExp rest = some (0, rest) := by
  rcases delimOk_cases h with rfl | ⟨c, cs, rfl, hc⟩
  · rfl
  · rcases hc with rfl | rfl | rfl <;> rfl

theorem digitChar_props {d : Nat} (h : d < 10) :
    (digitChar d).isDigit = true ∧ (digitChar d).toNat - '0'.toNat = d ∧
      digitChar d ≠ '-' ∧ digitChar d ≠ '`' ∧ (digitChar d = '0' ↔ d = 0) := by
  interval_cases d <;> decide

theorem natChars_mem {n : Nat} {c : Char} (h : c ∈ natChars n) :
    ∃ d, d < 10 ∧ c = digitChar d := by
  rw [natChars] at h
  split at h
  · rename_i hn
    simp at h
    exact ⟨n, hn, h⟩
  · rename_i hn
    rcases List.mem_append.mp h with h1 | h2
    · exact natChars_mem h1
    · simp at h2
      exact ⟨n % 10, by omega, h2⟩
termination_by n
decreasing_by omega

theorem natChars_head {n : Nat} : ∃ d ds, natChars n = digitChar d :: ds ∧ d < 10 ∧
    (1 ≤ n → d ≠ 0) := by
  rw [natChars]
  split
  · rename_i hn
    exact ⟨n, [], rfl, hn, fun h1 => by omega⟩
  · rename_i hn
    obtain ⟨d, ds, hds, hd, hdn⟩ := natChars_head (n := n / 10)
    exact ⟨d, ds ++ [digitChar (n % 10)], by rw [hds]; rfl, hd,
      fun _ => hdn (by omega)⟩
termination_by n
decreasing_by omega

theorem takeWhile_append_all {p : Char → Bool} {xs ys : Chars}
    (hx : ∀ c ∈ xs, p c = true) (hy : ∀ c cs, ys = c :: cs → p c = false) :
    (xs ++ ys).takeWhile p = xs ∧ (xs ++ ys).dropWhile p = ys := by
  induction xs with
  | nil =>
    simp only [List.nil_append]
    cases ys with
    | nil => exact ⟨rfl, rfl⟩
    | cons c cs =>
      have := hy c cs rfl
      simp [List.takeWhile_cons, List.dropWhile_cons, this]
  | cons x xs ih =>
    have hpx : p x = true := hx x (by simp)
    have := ih (fun c hc => hx c (by simp [hc]))
    simp [List.takeWhile_cons, List.dropWhile_cons, hpx, this.1, this.2]

theorem digitsToNat_append {xs : Chars} {c : Char} :
    digitsToNat (xs ++ [c]) = digitsToNat xs * 10 + (c.toNat - '0'.toNat) := by
  simp [digitsToNat, List.foldl_append]

theorem digitsToNat_natChars (n : Nat) : digitsToNat (natChars n) = n := by
  rw [natChars]
  split
  · rename_i hn
    show digitsToNat [digitChar n] = n
    have h1 := (digitChar_props hn).2.1
    unfold digitsToNat
    simp only [List.foldl]
    omega
  · rename_i hn
    rw [digitsToNat_append, digitsToNat_natChars (n / 10),
      (digitChar_props (d := n % 10) (by omega)).2.1]
    omega
termination_by n
decreasing_by omega

theorem parseNumber_digits {n : Nat} {rest : Chars} (hdel : delimOk rest = true) :
    parseNumber (natChars n ++ rest) = some ((n : ℚ), rest) := by
  obtain ⟨d, ds, hds, hd, hdn⟩ := natChars_head (n := n)
  have hrest_not_digit : ∀ c cs, rest = c :: cs → c.isDigit = false := by
    intro c cs hc
    subst hc
    simp [delimOk, or_assoc] at hdel
    rcases hdel with rfl | rfl | rfl <;> decide
  have hall : ∀ c ∈ natChars n, c.isDigit = true := by
    intro c hc
    obtain ⟨e, he, rfl⟩ := natChars_mem hc
    exact (digitChar_props he).1
  have htdw := takeWhile_append_all hall hrest_not_digit
  rw [hds] at htdw ⊢
  rw [List.cons_append]
  unfold parseNumber
  split
  · rename_i t heq
    injection heq with h1 h2
    exact absurd h1 (digitChar_props hd).2.2.1
  · have hdig := (digitChar_props hd).1
    simp only [hdig, if_true]
    rw [List.cons_append] at htdw
    have hif : (if digitChar d = '0' then (['0'], ds ++ rest)
        else (List.takeWhile Char.isDigit (digitChar d :: (ds ++ rest)),
          List.dropWhile Char.isDigit (digitChar d :: (ds ++ rest)))) = (natChars n, rest) := by
      by_cases hz : digitChar d = '0'
      · rw [if_pos hz]
        have hd0 : d = 0 := ((digitChar_props hd).2.2.2.2).mp hz
        have hn0 : n = 0 := by
          by_contra hne
          exact hdn (by omega) hd0
        subst hn0
        have h0 : natChars 0 = ['0'] := by rw [natChars]; rfl
        rw [h0] at hds
        have hds' : ds = [] := by
          injection hds with e1 e2
          exact e2.symm
        subst hds'
        simp [h0]
      · rw [if_neg hz, htdw.1, htdw.2, ← hds]
    simp only [hif]
    rw [parseFrac_delim hdel]
    simp only [parseExp_delim hdel, digitsToNat_natChars]
    simp [digitsToNat, Rat.mkRat_one]

theorem parseNumber_neg {n : Nat} {rest : Chars} (hn : 1 ≤ n) (hdel : delimOk rest = true) :
    parseNumber ('-' :: (natChars n ++ rest)) = some (-(n : ℚ), rest) := by
  obtain ⟨d, ds, hds, hd, hdn⟩ := natChars_head (n := n)
  have hall : ∀ c ∈ natChars n, c.isDigit = true := by
    intro c hc
    obtain ⟨e, he, rfl⟩ := natChars_mem hc
    exact (digitChar_props he).1
  have hrest_not_digit : ∀ c cs, rest = c :: cs → c.isDigit = false := by
    intro c cs hc
    subst hc
    simp [delimOk, or_assoc] at hdel
    rcases hdel with rfl | rfl | rfl <;> decide
  have htdw := takeWhile_append_all hall hrest_not_digit
  rw [hds] at htdw ⊢
  rw [List.cons_append]
  unfold parseNumber
  split
  · rename_i t heq
    injection heq with h1 h2
    subst h2
    have hdig := (digitChar_props hd).1
    simp only [hdig, if_true]
    rw [List.cons_append] at htdw
    have hif : (if digitChar d = '0' then (['0'], ds ++ rest)
        else (List.takeWhile Char.isDigit (digitChar d :: (ds ++ rest)),
          List.dropWhile Char.isDigit (digitChar d :: (ds ++ rest)))) = (natChars n, rest) := by
      by_cases hz : digitChar d = '0'
      · rw [if_pos hz]
        have hd0 : d = 0 := ((digitChar_props hd).2.2.2.2).mp hz
        exact absurd hd0 (hdn hn)
      · rw [if_neg hz, htdw.1, htdw.2, ← hds]
    simp only [hif]
    rw [parseFrac_delim hdel]
    simp only [parseExp_delim hdel, digitsToNat_natChars]
    simp [digitsToNat, Rat.mkRat_one]
  · rename_i hno
    exact absurd rfl (hno (digitChar d :: (ds ++ rest)))

theorem parseNumber_int {q : ℚ} (hq : q.den = 1) {rest : Chars} (hdel : delimOk rest = true) :
    parseNumber (serNum q ++ rest) = some (q, rest) := by
  have hqv : (q.num : ℚ) = q := by
    have := Rat.num_div_den q
    rwa [hq, Nat.cast_one, div_one] at this
  rcases hnum : q.num with n | m
  · rw [serNum, if_pos hq, intChars, if_neg (by rw [hnum]; exact not_lt.mpr (Int.ofNat_nonneg n)), hnum]
    show parseNumber (natChars n ++ rest) = some (q, rest)
    rw [parseNumber_digits hdel]
    rw [hnum] at hqv
    simp only [← hqv]
    norm_num
  · rw [serNum, if_pos hq, intChars, if_pos (by rw [hnum]; exact Int.negSucc_lt_zero m), hnum]
    show parseNumber ('-' :: (natChars (m + 1) ++ rest)) = some (q, rest)
    rw [parseNumber_neg (by omega) hdel]
    rw [hnum] at hqv
    rw [← hqv]
    norm_num

theorem safeChar_spec {c : Char} (h : safeChar c = true) :
    0x20 ≤ c.toNat ∧ c.toNat ≤ 0x7e ∧ c ≠ '"' ∧ c ≠ '\\' ∧ c ≠ '`' := by
  simp only [safeChar, Bool.and_eq_true, decide_eq_true_eq, bne_iff_ne, ne_eq,
    decide_eq_true_eq] at h
  tauto

theorem escChar_safe {c : Char} (h : safeChar c = true) : escChar c = [c] := by
  obtain ⟨h1, h2, h3, h4, h5⟩ := safeChar_spec h
  have t1 : c ≠ '\n' := fun hc => by rw [hc] at h1; simp at h1
  have t2 : c ≠ '\r' := fun hc => by rw [hc] at h1; simp at h1
  have t3 : c ≠ '\t' := fun hc => by rw [hc] at h1; simp at h1
  have t4 : c ≠ '\x08' := fun hc => by rw [hc] at h1; simp at h1
  have t5 : c ≠ '\x0c' := fun hc => by rw [hc] at h1; simp at h1
  rw [escChar, if_neg h3, if_neg h4, if_neg t1, if_neg t2, if_neg t3, if_neg t4, if_neg t5,
    if_neg (by simp; omega)]

theorem escStr_safe {s : Chars} (h : s.all safeChar = true) : escStr s = s := by
  induction s with
  | nil => rfl
  | cons c cs ih =>
    simp only [List.all_cons, Bool.and_eq_true] at h
    rw [escStr, escChar_safe h.1, ih h.2]
    rfl

theorem parseStringBody_safe {s : Chars} (h : s.all safeChar = true) (rest : Chars) :
    parseStringBody (s ++ '"' :: rest) = some (s, rest) := by
  induction s with
  | nil =>
    rw [List.nil_append, parseStringBody.eq_def]
    simp
  | cons c cs ih =>
    simp only [List.all_cons, Bool.and_eq_true] at h
    obtain ⟨h1, h2, h3, h4, h5⟩ := safeChar_spec h.1
    rw [List.cons_append, parseStringBody.eq_def]
    simp only [if_neg h3, if_neg h4, if_neg (by omega : ¬c.toNat < 0x20)]
    rw [ih h.2]
    rfl

theorem digitChar_head_facts {d : Nat} (h : d < 10) :
    digitChar d ≠ '{' ∧ digitChar d ≠ '[' ∧ digitChar d ≠ '"' ∧ digitChar d ≠ 't' ∧
      digitChar d ≠ 'f' ∧ digitChar d ≠ 'n' ∧ jsonWs (digitChar d) = false ∧
      digitChar d ≠ ']' ∧ digitChar d ≠ '}' ∧ digitChar d ≠ '`' := by
  interval_cases d <;> decide

theorem serNum_head {q : ℚ} (hq : q.den = 1) :
    ∃ c cs, serNum q = c :: cs ∧ c ≠ '{' ∧ c ≠ '[' ∧ c ≠ '"' ∧ c ≠ 't' ∧ c ≠ 'f' ∧
      c ≠ 'n' ∧ jsonWs c = false ∧ c ≠ ']' ∧ c ≠ '}' ∧ c ≠ '`' := by
  rw [serNum, if_pos hq, intChars]
  split
  · exact ⟨'-', natChars (-q.num).toNat, rfl, by decide⟩
  · obtain ⟨d, ds, hds, hd, _⟩ := natChars_head (n := q.num.toNat)
    exact ⟨digitChar d, ds, hds, digitChar_head_facts hd⟩

theorem serMembers_head (kv : String × Json) (kvs : List (String × Json)) :
    ∃ tl, serMembers kv kvs = '"' :: tl := by
  rcases kv with ⟨k, v⟩
  cases kvs with
  | nil => exact ⟨escStr k.data ++ '"' :: ':' :: ' ' :: serVal v, by simp [serMembers]⟩
  | cons kv' kvs' =>
    exact ⟨escStr k.data ++ '"' :: ':' :: ' ' :: (serVal v ++ ',' :: ' ' :: serMembers kv' kvs'),
      by simp [serMembers]⟩

theorem serVal_head {v : Json} (h : jsafe v = true) :
    ∃ c cs, serVal v = c :: cs ∧ jsonWs c = false ∧ c ≠ ']' := by
  cases v with
  | null => exact ⟨'n', ['u', 'l', 'l'], by simp [serVal], by decide, by decide⟩
  | bool b =>
    cases b with
    | false => exact ⟨'f', ['a', 'l', 's', 'e'], by simp [serVal], by decide, by decide⟩
    | true => exact ⟨'t', ['r', 'u', 'e'], by simp [serVal], by decide, by decide⟩
  | num q =>
    have hq : q.den = 1 := by simpa [jsafe] using h
    obtain ⟨c, cs, hc, _, _, _, _, _, _, hws, hrb, _, _⟩ := serNum_head hq
    exact ⟨c, cs, by simp [serVal, hc], hws, hrb⟩
  | str s => exact ⟨'"', escStr s.data ++ ['"'], by simp [serVal], by decide, by decide⟩
  | arr xs =>
    cases xs with
    | nil => exact ⟨'[', [']'], by simp [serVal], by decide, by decide⟩
    | cons x xs' =>
      exact ⟨'[', serElems x xs' ++ [']'], by simp [serVal], by decide, by decide⟩
  | obj kvs =>
    cases kvs with
    | nil => exact ⟨'{', ['}'], by simp [serVal], by decide, by decide⟩
    | cons kv kvs' =>
      exact ⟨'{', serMembers kv kvs' ++ ['}'], by simp [serVal], by decide, by decide⟩

theorem serVal_ne_nil {v : Json} (h : jsafe v = true) : serVal v ≠ [] := by
  obtain ⟨c, cs, hc, _, _⟩ := serVal_head h
  simp [hc]

theorem skipWs_cons {c : Char} {cs : Chars} (h : jsonWs c = false) :
    skipWs (c :: cs) = c :: cs := by
  simp [skipWs, List.dropWhile_cons, h]

theorem serElems_head {x : Json} (xs : List Json) (h : jsafe x = true) :
    ∃ c cs, serElems x xs = c :: cs ∧ jsonWs c = false ∧ c ≠ ']' := by
  obtain ⟨c, cs, hc, hws, hnb⟩ := serVal_head h
  cases xs with
  | nil => exact ⟨c, cs, by simp [serElems, hc], hws, hnb⟩
  | cons y ys =>
    exact ⟨c, cs ++ ',' :: ' ' :: serElems y ys, by simp [serElems, hc], hws, hnb⟩

theorem dset_notin {d : PyDict} {k : String} {v : Json} (h : k ∉ dkeys d) :
    dset d k v = d ++ [(k, v)] := by
  induction d with
  | nil => rfl
  | cons kv rest ih =>
    rcases kv with ⟨k', v'⟩
    simp only [dkeys, List.map_cons, List.mem_cons, not_or] at h
    simp only [dset, if_neg (fun he : k' = k => h.1 he.symm), List.cons_append,
      List.cons.injEq, true_and]
    exact ih (by simpa [dkeys] using h.2)

theorem foldl_dset_eq (kvs : List (String × Json)) : ∀ (acc : PyDict),
    nodupKeys (kvs.map Prod.fst) = true →
    (∀ k, k ∈ kvs.map Prod.fst → k ∉ dkeys acc) →
    kvs.foldl (fun d kv => dset d kv.1 kv.2) acc = acc ++ kvs := by
  induction kvs with
  | nil => intro acc _ _; simp
  | cons kv rest ih =>
    intro acc hnd hdisj
    rcases kv with ⟨k, v⟩
    simp only [List.map_cons, nodupKeys, Bool.and_eq_true, Bool.not_eq_true'] at hnd
    have hk : k ∉ dkeys acc := hdisj k (by simp)
    simp only [List.foldl_cons]
    rw [show dset acc (k, v).1 (k, v).2 = dset acc k v from rfl, dset_notin hk,
      ih (acc ++ [(k, v)]) hnd.2 ?_]
    · simp
    · intro k' hk'
      have h1 : k' ∉ dkeys acc := hdisj k' (by simp [hk'])
      have hkmem : k ∉ rest.map Prod.fst := by simpa using hnd.1
      have h2 : k' ≠ k := fun he => hkmem (he ▸ hk')
      intro hcon
      simp only [dkeys, List.map_append, List.mem_append, List.map_cons, List.map_nil,
        List.mem_singleton] at hcon
      simp only [dkeys] at h1
      rcases hcon with hin | hin
      · exact h1 hin
      · exact h2 hin

theorem objFromList_id {kvs : List (String × Json)}
    (h : nodupKeys (kvs.map Prod.fst) = true) : objFromList kvs = kvs := by
  have := foldl_dset_eq kvs [] h (by simp [dkeys])
  simpa [objFromList] using this

theorem parse_ser (fuel : Nat) :
    (∀ v rest, jsafe v = true → delimOk rest = true → (serVal v).length ≤ fuel →
      parseVal fuel (serVal v ++ rest) = some (v, rest)) ∧
    (∀ kv kvs rest, jsafeObj (kv :: kvs) = true →
      (serMembers kv kvs).length + 1 ≤ fuel →
      parseMembers fuel (serMembers kv kvs ++ '}' :: rest) = some (kv :: kvs, rest)) ∧
    (∀ x xs rest, jsafeList (x :: xs) = true →
      (serElems x xs).length + 1 ≤ fuel →
      parseElems fuel (serElems x xs ++ ']' :: rest) = some (x :: xs, rest)) := by
  induction fuel using Nat.strong_induction_on with
  | _ fuel ih =>
  cases fuel with
  | zero =>
    refine ⟨?_, ?_, ?_⟩
    · intro v rest hs _ hlen
      have hne := serVal_ne_nil hs
      have : serVal v = [] := List.eq_nil_of_length_eq_zero (by omega)
      exact absurd this hne
    · intro kv kvs rest _ hlen
      omega
    · intro x xs rest _ hlen
      omega
  | succ f =>
    refine ⟨?_, ?_, ?_⟩
    · intro v rest hs hdel hlen
      cases v with
      | null =>
        simp [serVal, parseVal, List.isPrefixOf]
      | bool b =>
        cases b with
        | false => simp [serVal, parseVal, List.isPrefixOf]
        | true => simp [serVal, parseVal, List.isPrefixOf]
      | num q =>
        have hq : q.den = 1 := by simpa [jsafe] using hs
        obtain ⟨c, cs, hc, f1, f2, f3, f4, f5, f6, f7, f8, f9, f10⟩ := serNum_head hq
        simp only [serVal]
        rw [hc, List.cons_append, parseVal.eq_def]
        simp only [f1, f2, f3, f4, f5, f6, if_false, if_neg]
        rw [← List.cons_append, ← hc, parseNumber_int hq hdel]
        rfl
      | str s =>
        have hsafe : s.data.all safeChar = true := by simpa [jsafe, safeStr] using hs
        simp only [serVal, escStr_safe hsafe, List.cons_append, List.append_assoc,
          List.singleton_append]
        rw [parseVal.eq_def]
        simp [parseStringBody_safe hsafe]
      | arr xs =>
        have hls : jsafeList xs = true := by simpa [jsafe] using hs
        cases xs with
        | nil => simp [serVal, parseVal, skipWs, List.dropWhile_cons, jsonWs]
        | cons x xs' =>
          have hx : jsafe x = true := by
            simp only [jsafeList, Bool.and_eq_true] at hls
            exact hls.1
          simp only [serVal, List.cons_append, List.append_assoc, List.singleton_append]
          obtain ⟨c0, cs0, hc0, hws0, hnb0⟩ := serElems_head xs' hx
          rw [hc0, List.cons_append, parseVal.eq_def]
          simp only [skipWs_cons hws0, List.nil_append, reduceIte, Char.reduceEq]
          split
          · rename_i r heq
            rw [List.cons_eq_cons] at heq
            exact absurd heq.1 hnb0
          · rw [← List.cons_append, ← hc0,
              (ih f (by omega)).2.2 x xs' rest hls ?_]
            · rfl
            · simp only [serVal, List.length_cons, List.length_append,
                List.length_singleton] at hlen
              omega
      | obj kvs =>
        simp only [jsafe, Bool.and_eq_true] at hs
        cases kvs with
        | nil => simp [serVal, parseVal, skipWs, List.dropWhile_cons, jsonWs]
        | cons kv kvs' =>
          simp only [serVal, List.cons_append, List.append_assoc, List.singleton_append]
          obtain ⟨tl, htl⟩ := serMembers_head kv kvs'
          rw [htl, List.cons_append, parseVal.eq_def]
          simp only [skipWs_cons (show jsonWs '"' = false from rfl), List.nil_append,
            reduceIte, Char.reduceEq]
          split
          · rename_i r heq
            rw [List.cons_eq_cons] at heq
            exact absurd heq.1 (by decide)
          · rw [← List.cons_append, ← htl,
              (ih f (by omega)).2.1 kv kvs' rest hs.1 ?_]
            · show some (Json.obj (objFromList (kv :: kvs')), rest) =
                some (Json.obj (kv :: kvs'), rest)
              rw [objFromList_id hs.2]
            · simp only [serVal, List.length_cons, List.length_append,
                List.length_singleton] at hlen
              omega
    · intro kv kvs rest hso hlen
      rcases kv with ⟨k, v⟩
      have hparts : safeStr k = true ∧ jsafe v = true ∧ jsafeObj kvs = true := by
        simpa [jsafeObj, and_assoc] using hso
      obtain ⟨hk, hv, hrest_obj⟩ := hparts
      have hkall : k.data.all safeChar = true := hk
      obtain ⟨cv, csv, hcv, hwsv, _⟩ := serVal_head hv
      cases kvs with
      | nil =>
        have hlv : (serVal v).length ≤ f := by
          simp only [serMembers, escStr_safe hkall, List.length_cons,
            List.length_append] at hlen
          omega
        have hsp : skipWs (' ' :: (serVal v ++ '}' :: rest)) = serVal v ++ '}' :: rest := by
          rw [show skipWs (' ' :: (serVal v ++ '}' :: rest))
              = skipWs (serVal v ++ '}' :: rest) from by
            simp [skipWs, List.dropWhile_cons, jsonWs]]
          rw [hcv, List.cons_append, skipWs_cons hwsv, ← List.cons_append, ← hcv]
        simp only [serMembers, escStr_safe hkall, List.cons_append, List.append_assoc]
        rw [parseMembers.eq_def]
        simp only [parseStringBody_safe hkall, Option.bind_eq_bind, Option.some_bind,
          skipWs_cons (show jsonWs ':' = false from rfl), hsp,
          (ih f (by omega)).1 v ('}' :: rest) hv (by simp [delimOk]) hlv,
          skipWs_cons (show jsonWs '}' = false from rfl)]
      | cons kv' kvs' =>
        obtain ⟨tl', htl'⟩ := serMembers_head kv' kvs'
        have hlv : (serVal v).length ≤ f := by
          simp only [serMembers, escStr_safe hkall, List.length_cons,
            List.length_append] at hlen
          omega
        have hlm : (serMembers kv' kvs').length + 1 ≤ f := by
          simp only [serMembers, escStr_safe hkall, List.length_cons,
            List.length_append] at hlen
          omega
        have hsp : skipWs (' ' :: (serVal v ++ ',' :: ' ' :: (serMembers kv' kvs' ++ '}' :: rest)))
            = serVal v ++ ',' :: ' ' :: (serMembers kv' kvs' ++ '}' :: rest) := by
          rw [show skipWs (' ' :: (serVal v ++ ',' :: ' ' :: (serMembers kv' kvs' ++ '}' :: rest)))
              = skipWs (serVal v ++ ',' :: ' ' :: (serMembers kv' kvs' ++ '}' :: rest)) from by
            simp [skipWs, List.dropWhile_cons, jsonWs]]
          rw [hcv, List.cons_append, skipWs_cons hwsv, ← List.cons_append, ← hcv]
        have hsp2 : skipWs (' ' :: (serMembers kv' kvs' ++ '}' :: rest))
            = serMembers kv' kvs' ++ '}' :: rest := by
          rw [show skipWs (' ' :: (serMembers kv' kvs' ++ '}' :: rest))
              = skipWs (serMembers kv' kvs' ++ '}' :: rest) from by
            simp [skipWs, List.dropWhile_cons, jsonWs]]
          rw [htl', List.cons_append, skipWs_cons (show jsonWs '"' = false from rfl),
            ← List.cons_append, ← htl']
        simp only [serMembers, escStr_safe hkall, List.cons_append, List.append_assoc]
        rw [parseMembers.eq_def]
        simp only [parseStringBody_safe hkall, Option.bind_eq_bind, Option.some_bind,
          skipWs_cons (show jsonWs ':' = false from rfl), hsp,
          (ih f (by omega)).1 v (',' :: ' ' :: (serMembers kv' kvs' ++ '}' :: rest)) hv
            (by simp [delimOk]) hlv,
          skipWs_cons (show jsonWs ',' = false from rfl), hsp2,
          (ih f (by omega)).2.1 kv' kvs' rest hrest_obj hlm]
    · intro x xs rest hsl hlen
      have hx : jsafe x = true ∧ jsafeList xs = true := by
        simpa [jsafeList] using hsl
      cases xs with
      | nil =>
        have hlx : (serVal x).length ≤ f := by
          simp only [serElems] at hlen
          omega
        simp only [serElems]
        rw [parseElems.eq_def]
        simp only [(ih f (by omega)).1 x (']' :: rest) hx.1 (by simp [delimOk]) hlx,
          Option.bind_eq_bind, Option.some_bind, skipWs_cons (show jsonWs ']' = false from rfl)]
      | cons y ys =>
        have hlx : (serVal x).length ≤ f := by
          simp only [serElems, List.length_cons, List.length_append] at hlen
          omega
        have hly : (serElems y ys).length + 1 ≤ f := by
          simp only [serElems, List.length_cons, List.length_append] at hlen
          omega
        obtain ⟨cy, csy, hcy, hwsy, _⟩ := serElems_head ys (by
          simp only [jsafeList, Bool.and_eq_true] at hx
          exact hx.2.1)
        have hsp : skipWs (' ' :: (serElems y ys ++ ']' :: rest))
            = serElems y ys ++ ']' :: rest := by
          rw [show skipWs (' ' :: (serElems y ys ++ ']' :: rest))
              = skipWs (serElems y ys ++ ']' :: rest) from by
            simp [skipWs, List.dropWhile_cons, jsonWs]]
          rw [hcy, List.cons_append, skipWs_cons hwsy, ← List.cons_append, ← hcy]
        simp only [serElems, List.cons_append, List.append_assoc]
        rw [parseElems.eq_def]
        simp only [(ih f (by omega)).1 x (',' :: ' ' :: (serElems y ys ++ ']' :: rest)) hx.1
            (by simp [delimOk]) hlx,
          Option.bind_eq_bind, Option.some_bind, skipWs_cons (show jsonWs ',' = false from rfl), hsp,
          (ih f (by omega)).2.2 y ys rest hx.2 hly]

theorem loadsC_serVal {v : Json} (h : jsafe v = true) : loadsC (serVal v) = some v := by
  obtain ⟨c, cs, hc, hws, _⟩ := serVal_head h
  unfold loadsC
  rw [hc, skipWs_cons hws, ← hc]
  have hp := (parse_ser ((serVal v).length + 1)).1 v [] h rfl (by omega)
  rw [List.append_nil] at hp
  rw [hp]
  rfl

theorem serVal_bt (n : Nat) :
    (∀ v, (serVal v).length ≤ n → jsafe v = true → '`' ∉ serVal v) ∧
    (∀ kv kvs, (serMembers kv kvs).length + 1 ≤ n → jsafeObj (kv :: kvs) = true →
      '`' ∉ serMembers kv kvs) ∧
    (∀ x xs, (serElems x xs).length + 1 ≤ n → jsafeList (x :: xs) = true →
      '`' ∉ serElems x xs) := by
  induction n using Nat.strong_induction_on with
  | _ n ih =>
  refine ⟨?_, ?_, ?_⟩
  · intro v hlen hs
    cases v with
    | null => simp only [serVal]; decide
    | bool b => cases b <;> (simp only [serVal]; decide)
    | num q =>
      have hq : q.den = 1 := by simpa [jsafe] using hs
      simp only [serVal, serNum, if_pos hq, intChars]
      split
      · intro hmem
        simp only [List.mem_cons] at hmem
        rcases hmem with h1 | h1
        · exact absurd h1 (by decide)
        · obtain ⟨d, hd, he⟩ := natChars_mem h1
          exact absurd he.symm ((digitChar_props hd).2.2.2.1)
      · intro hmem
        obtain ⟨d, hd, he⟩ := natChars_mem hmem
        exact absurd he.symm ((digitChar_props hd).2.2.2.1)
    | str s =>
      have hsafe : s.data.all safeChar = true := by simpa [jsafe, safeStr] using hs
      simp only [serVal, escStr_safe hsafe]
      intro hmem
      simp only [List.mem_cons, List.mem_append, List.mem_singleton] at hmem
      rcases hmem with h1 | h1 | h1
      · exact absurd h1 (by decide)
      · have hall := List.all_eq_true.mp hsafe _ h1
        exact (safeChar_spec hall).2.2.2.2 rfl
      · exact absurd h1 (by decide)
    | arr xs =>
      cases xs with
      | nil => simp only [serVal]; decide
      | cons x xs' =>
        have hls : jsafeList (x :: xs') = true := by simpa [jsafe] using hs
        have hlt : (serElems x xs').length + 1 < n := by
          simp only [serVal, List.length_cons, List.length_append,
            List.length_singleton] at hlen
          omega
        simp only [serVal]
        intro hmem
        simp only [List.mem_cons, List.mem_append, List.mem_singleton] at hmem
        rcases hmem with h1 | h1 | h1
        · exact absurd h1 (by decide)
        · exact absurd h1 ((ih _ hlt).2.2 x xs' (le_refl _) hls)
        · exact absurd h1 (by decide)
    | obj kvs =>
      simp only [jsafe, Bool.and_eq_true] at hs
      cases kvs with
      | nil => simp only [serVal]; decide
      | cons kv kvs' =>
        have hlt : (serMembers kv kvs').length + 1 < n := by
          simp only [serVal, List.length_cons, List.length_append,
            List.length_singleton] at hlen
          omega
        simp only [serVal]
        intro hmem
        simp only [List.mem_cons, List.mem_append, List.mem_singleton] at hmem
        rcases hmem with h1 | h1 | h1
        · exact absurd h1 (by decide)
        · exact absurd h1 ((ih _ hlt).2.1 kv kvs' (le_refl _) hs.1)
        · exact absurd h1 (by decide)
  · intro kv kvs hlen hso
    rcases kv with ⟨k, v⟩
    have hparts : safeStr k = true ∧ jsafe v = true ∧ jsafeObj kvs = true := by
      simpa [jsafeObj, and_assoc] using hso
    obtain ⟨hk, hv, hro⟩ := hparts
    have hkall : k.data.all safeChar = true := hk
    cases kvs with
    | nil =>
      have hlt : (serVal v).length < n := by
        simp only [serMembers, escStr_safe hkall, List.length_cons,
          List.length_append] at hlen
        omega
      simp only [serMembers, escStr_safe hkall]
      intro hmem
      simp only [List.mem_cons, List.mem_append] at hmem
      rcases hmem with h1 | h1 | h1 | h1 | h1 | h1
      · exact absurd h1 (by decide)
      · have hall := List.all_eq_true.mp hkall _ h1
        exact (safeChar_spec hall).2.2.2.2 rfl
      · exact absurd h1 (by decide)
      · exact absurd h1 (by decide)
      · exact absurd h1 (by decide)
      · exact absurd h1 ((ih _ hlt).1 v (le_refl _) hv)
    | cons kv' kvs' =>
      have hlt : (serVal v).length < n ∧ (serMembers kv' kvs').length + 1 < n := by
        simp only [serMembers, escStr_safe hkall, List.length_cons,
          List.length_append] at hlen
        omega
      simp only [serMembers, escStr_safe hkall]
      intro hmem
      simp only [List.mem_cons, List.mem_append] at hmem
      rcases hmem with (h1 | h1 | h1 | h1 | h1 | h1) | h1 | h1 | h1
      · exact absurd h1 (by decide)
      · have hall := List.all_eq_true.mp hkall _ h1
        exact (safeChar_spec hall).2.2.2.2 rfl
      · exact absurd h1 (by decide)
      · exact absurd h1 (by decide)
      · exact absurd h1 (by decide)
      · exact absurd h1 ((ih _ hlt.1).1 v (le_refl _) hv)
      · exact absurd h1 (by decide)
      · exact absurd h1 (by decide)
      · exact absurd h1 ((ih _ hlt.2).2.1 kv' kvs' (le_refl _) hro)
  · intro x xs hlen hsl
    have hx : jsafe x = true ∧ jsafeList xs = true := by
      simpa [jsafeList] using hsl
    cases xs with
    | nil =>
      have hlt : (serVal x).length < n := by
        simp only [serElems] at hlen
        omega
      simp only [serElems]
      exact (ih _ hlt).1 x (le_refl _) hx.1
    | cons y ys =>
      have hlt : (serVal x).length < n ∧ (serElems y ys).length + 1 < n := by
        simp only [serElems, List.length_cons, List.length_append] at hlen
        omega
      simp only [serElems]
      intro hmem
      simp only [List.mem_cons, List.mem_append] at hmem
      rcases hmem with h1 | h1 | h1 | h1
      · exact absurd h1 ((ih _ hlt.1).1 x (le_refl _) hx.1)
      · exact absurd h1 (by decide)
      · exact absurd h1 (by decide)
      · exact absurd h1 ((ih _ hlt.2).2.2 y ys (le_refl _) hx.2)

theorem serObj_head (M : List (String × Json)) :
    (serVal (Json.obj M)).head? = some '{' := by
  cases M with
  | nil => simp [serVal]
  | cons kv kvs => simp [serVal]

theorem serObj_last (M : List (String × Json)) :
    (serVal (Json.obj M)).getLast? = some '}' := by
  cases M with
  | nil => simp [serVal]
  | cons kv kvs =>
    rw [show serVal (Json.obj (kv :: kvs)) = ('{' :: serMembers kv kvs) ++ ['}'] from by
      simp [serVal]]
    exact List.getLast?_concat _

/-- `str.strip()` is the identity on text with non-whitespace endpoints. -/
theorem trimC_eq_self {m : Chars} {c c' : Char} (hhead : m.head? = some c)
    (hwc : wsChar c = false) (hlast : m.getLast? = some c')
    (hwc' : wsChar c' = false) : trimC m = m := by
  have h := trimC_append (a := []) (b := []) hhead hwc hlast hwc'
  simpa [trimL, trimR] using h

/-- C7 (counterexample): for the mapping M sending key "a" to the
string of three backticks, the text
` ```json <dumps M> ``` ` embeds `json.dumps(M)` inside a fenced ```json
block, yet extraction fails: the backticks inside the string value close
the fenced block early, so the non-greedy regex captures a JSON prefix
that does not parse. -/
theorem c7_counterexample :
    "```json \x7b\"a\": \"```\"\x7d ```".data
      = fenceOpen ++ (' ' :: ((dumps (Json.obj [("a", Json.str "```")])).data ++
        (' ' :: fenceMark))) ∧
    extract_json_from_model_response "```json \x7b\"a\": \"```\"\x7d ```" =
      .error .jsonDecodeError := by
  constructor
  · rw [show dumps (Json.obj [("a", Json.str "```")]) = "\x7b\"a\": \"```\"\x7d" from by
      simp [dumps, serVal, serMembers, escStr, escChar]]
    rfl
  · rfl

/-- C7 (amended): the round trip holds on the backtick-free fragment: for
every mapping M whose serialization is `jsafe` — integral numbers,
printable-ASCII strings without `"`, `\x5c` or backticks, and
pairwise-distinct keys at every object — extracting any text that embeds
`json.dumps(M)` inside a fenced ```json block (with no backtick and no
think-tag in the preceding prose) returns a mapping equal to M. -/
theorem c7_roundtrip :
    ∀ (M : PyDict) (t : String) (pre post : Chars),
      jsafe (Json.obj M) = true →
      t.data = pre ++ (fenceOpen ++ ((dumps (Json.obj M)).data ++ (fenceMark ++ post))) →
      hasSub thinkOpen t.data = false →
      '`' ∉ pre →
      extract_json_from_model_response t = .ok (Json.obj M) := by
  intro M t pre post hsafe ht hnothink hpre
  have hmid : '`' ∉ (dumps (Json.obj M)).data := by
    show '`' ∉ serVal (Json.obj M)
    exact (serVal_bt (serVal (Json.obj M)).length).1 _ (le_refl _) hsafe
  have hrt : removeThink t.data
      = pre ++ (fenceOpen ++ ((dumps (Json.obj M)).data ++ (fenceMark ++ post))) := by
    rw [ht] at hnothink ⊢
    exact removeThink_id hnothink
  have hload : loadsC (trimC (dumps (Json.obj M)).data) = some (Json.obj M) := by
    show loadsC (trimC (serVal (Json.obj M))) = some (Json.obj M)
    rw [trimC_eq_self (serObj_head M) rfl (serObj_last M) rfl]
    exact loadsC_serVal hsafe
  exact extract_fenced_body hrt hpre hmid hload

/-- Witness for C7 (amended): the mapping {"a": true, "b": "hi"} embedded
in a fenced block round-trips. -/
theorem c7_witness :
    jsafe (Json.obj [("a", Json.bool true), ("b", Json.str "hi")]) = true ∧
    "```json\x7b\"a\": true, \"b\": \"hi\"\x7d```".data
      = [] ++ (fenceOpen ++
        ((dumps (Json.obj [("a", Json.bool true), ("b", Json.str "hi")])).data ++
          (fenceMark ++ []))) ∧
    extract_json_from_model_response "```json\x7b\"a\": true, \"b\": \"hi\"\x7d```" =
      .ok (Json.obj [("a", Json.bool true), ("b", Json.str "hi")]) := by
  have h1 : jsafe (Json.obj [("a", Json.bool true), ("b", Json.str "hi")]) = true := by
    simp [jsafe, jsafeObj, jsafeList, safeStr, nodupKeys, safeChar]
  have h2 : dumps (Json.obj [("a", Json.bool true), ("b", Json.str "hi")])
      = "\x7b\"a\": true, \"b\": \"hi\"\x7d" := by
    simp [dumps, serVal, serMembers, escStr, escChar]
  refine ⟨h1, by rw [h2]; rfl, ?_⟩
  exact c7_roundtrip [("a", Json.bool true), ("b", Json.str "hi")]
    "```json\x7b\"a\": true, \"b\": \"hi\"\x7d```" [] []
    h1 (by rw [h2]; rfl) (by decide) (by decide)

end AIMicro
